import Mathlib

/-!
The bulk-mailer program: a verification development for `main.go`.

The program reads SMTP credentials and a recipient list from two CSV files,
validates every recipient address against a regular expression, renders a
template for each accepted recipient and hands the message to
`smtp.SendMail`, retrying failed sends.

Modelling conventions.

* A Go `string` is modelled by the list of its code points (`List Char`).
  Every character the program itself inspects or emits is ASCII.
* The effects of a run (SMTP attempts, sleeps, lines printed on standard
  output) are collected, in order, in a trace of events.
* `smtp.SendMail` is an external effect.  A transport is an oracle that gives
  the result of the `n`-th SMTP attempt of the run.
* `log.Fatal` / `log.Fatalln` and a run-time index-out-of-range failure end the
  run; they are modelled by the `Abort` type.
* A CSV input is given by the results of the successive calls of `Read`.  The
  function `csvRead` gives these results for the rows of a file: the readers of
  `ReadRecipient` keep the default settings, so a row whose number of fields
  differs from that of the first row is returned as an error.
-/

namespace BulkMailer

/-- A Go string, as the list of its code points. -/
abbrev GoString := List Char

/-- A Go `error` value that is not `nil`, represented by its message. -/
abbrev GoError := GoString

/-! ## Regular expressions (the fragment of `regexp` syntax used by `main.go`) -/

/-- Abstract syntax of regular expressions.  `cls` is a bracket expression given
by its list of inclusive ranges (a single character `c` is the range `(c, c)`);
`rep r lo hi` is bounded or unbounded repetition, so that `r*`, `r+`, `r?` and
`r{lo,hi}` are all instances of it; `empty` (no string at all) only arises as a
derivative. -/
inductive Regex where
  | empty : Regex
  | eps : Regex
  | cls (ranges : List (Char × Char)) : Regex
  | cat (a b : Regex) : Regex
  | alt (a b : Regex) : Regex
  | rep (a : Regex) (lo : Nat) (hi : Option Nat) : Regex

namespace Regex

/-- The regular expression `r*`. -/
def star (r : Regex) : Regex := rep r 0 none

/-- The regular expression `r+`. -/
def plus (r : Regex) : Regex := rep r 1 none

/-- The regular expression `r?` (also the non-capturing `(?:r)?`). -/
def quest (r : Regex) : Regex := rep r 0 (some 1)

/-- A literal character. -/
def lit (c : Char) : Regex := cls [(c, c)]

/-- Membership of a character in a bracket expression. -/
def inClass (ranges : List (Char × Char)) (c : Char) : Bool :=
  ranges.any fun r => decide (r.1 ≤ c) && decide (c ≤ r.2)

/-- Whether the expression matches the empty string. -/
def nullable : Regex → Bool
  | empty => false
  | eps => true
  | cls _ => false
  | cat a b => nullable a && nullable b
  | alt a b => nullable a || nullable b
  | rep a lo hi =>
    (lo == 0 || nullable a) &&
      (match hi with
       | some h => decide (lo ≤ h)
       | none => true)

/-- Brzozowski derivative of an expression with respect to one character. -/
def deriv : Regex → Char → Regex
  | empty, _ => empty
  | eps, _ => empty
  | cls ranges, c => if inClass ranges c then eps else empty
  | cat a b, c =>
    if nullable a then alt (cat (deriv a c) b) (deriv b c) else cat (deriv a c) b
  | alt a b, c => alt (deriv a c) (deriv b c)
  | rep a lo hi, c =>
    match hi with
    | some 0 => empty
    | _ => cat (deriv a c) (rep a (lo - 1) (hi.map fun h => h - 1))

/-- Whether the whole string is matched by the expression. -/
def fullMatch (r : Regex) (s : GoString) : Bool :=
  nullable (s.foldl deriv r)

/-- The set of strings an expression denotes. -/
def lang : Regex → GoString → Prop
  | empty, _ => False
  | eps, s => s = []
  | cls ranges, s => ∃ c, s = [c] ∧ inClass ranges c = true
  | cat a b, s => ∃ u v, s = u ++ v ∧ lang a u ∧ lang b v
  | alt a b, s => lang a s ∨ lang b s
  | rep a lo hi, s =>
    ∃ parts : List GoString,
      lo ≤ parts.length ∧ (∀ h, hi = some h → parts.length ≤ h) ∧
        s = parts.flatten ∧ ∀ p ∈ parts, lang a p

end Regex

/-! ## `ValidateFormat` -/

/-- The bracket expression `[a-zA-Z0-9.!#$%&'*+/=?^_{|}~-]` (with the backquote
between `_` and the opening brace), the class of the local part. -/
def localClass : List (Char × Char) :=
  [('a', 'z'), ('A', 'Z'), ('0', '9'), ('.', '.'), ('!', '!'), ('#', '#'),
   ('$', '$'), ('%', '%'), ('&', '&'), (Char.ofNat 39, Char.ofNat 39),
   ('*', '*'), ('+', '+'), ('/', '/'), ('=', '='), ('?', '?'), ('^', '^'),
   ('_', '_'), (Char.ofNat 96, Char.ofNat 96), (Char.ofNat 123, Char.ofNat 123),
   ('|', '|'), (Char.ofNat 125, Char.ofNat 125), ('~', '~'), ('-', '-')]

/-- The bracket expression `[a-zA-Z0-9]`. -/
def alnumClass : List (Char × Char) :=
  [('a', 'z'), ('A', 'Z'), ('0', '9')]

/-- The bracket expression `[a-zA-Z0-9-]`. -/
def alnumHyphenClass : List (Char × Char) :=
  [('a', 'z'), ('A', 'Z'), ('0', '9'), ('-', '-')]

/-- The sub-expression `[a-zA-Z0-9](?:[a-zA-Z0-9-]{0,61}[a-zA-Z0-9])?`, which
occurs twice in the pattern. -/
def labelRegex : Regex :=
  Regex.cat (Regex.cls alnumClass)
    (Regex.quest
      (Regex.cat (Regex.rep (Regex.cls alnumHyphenClass) 0 (some 61))
        (Regex.cls alnumClass)))

/-- The pattern compiled in `ValidateFormat`, between its anchors `^` and `$`:
`[local]+@label(?:\.label)*`. -/
def emailRegex : Regex :=
  Regex.cat (Regex.plus (Regex.cls localClass))
    (Regex.cat (Regex.lit '@')
      (Regex.cat labelRegex
        (Regex.star (Regex.cat (Regex.lit '.') labelRegex))))

/-- The call `regex.MatchString(email)` of `ValidateFormat`.  The pattern starts
with `^` and ends with `$` and sets no flag, so these anchor the match at the
beginning and at the end of the text: the call succeeds exactly when the whole
string is matched by the expression between the anchors. -/
def MatchString (email : GoString) : Bool :=
  Regex.fullMatch emailRegex email

/-- The function `ValidateFormat` validates the email using the regular expression; `none` is
Go's `nil` error. -/
def ValidateFormat (email : GoString) : Option GoError :=
  if !MatchString email then some "Invalid Format".toList else none

/-! ## Effects of a run -/

/-- The value of `smtp.PlainAuth(identity, username, password, host)`. -/
structure PlainAuth where
  identity : GoString
  username : GoString
  password : GoString
  host : GoString
  deriving DecidableEq

/-- The arguments of one call `smtp.SendMail(addr, a, from, to, msg)`. -/
structure SendCall where
  addr : GoString
  auth : PlainAuth
  from_ : GoString
  to_ : List GoString
  msg : GoString
  deriving DecidableEq

/-- The observable effects of the program. -/
inductive Event where
  | sendMail (call : SendCall) (err : Option GoError)
  | sleep (seconds : Nat)
  | println (args : List GoString)
  deriving DecidableEq

/-- The effects of a run so far, oldest first. -/
abbrev Trace := List Event

/-- The outcome of the `n`-th SMTP attempt of the run (counting from 0): `none`
is success (`nil`), `some err` a failure.  A run makes its attempts one after
the other, so any behaviour of a transport during a run is such a sequence of
outcomes. -/
abbrev Transport := Nat → Option GoError

/-- The SMTP attempts recorded in a trace, with their results, in order. -/
def smtpAttempts (tr : Trace) : List (SendCall × Option GoError) :=
  tr.filterMap fun e =>
    match e with
    | Event.sendMail call err => some (call, err)
    | _ => none

/-- The addresses named in the final report lines of `Send` ("Email Sent to" or
"Failed sending to"), in order: one for every completed call of `Send`. -/
def reported (tr : Trace) : List GoString :=
  tr.filterMap fun e =>
    match e with
    | Event.println [label, a] =>
      if label = "Email Sent to ".toList ∨ label = "Failed sending to ".toList then some a
      else none
    | _ => none

/-- The call `smtp.SendMail(...)`: its result is given by the transport, and the
attempt is recorded. -/
def sendMail (t : Transport) (call : SendCall) (tr : Trace) : Option GoError × Trace :=
  let err := t (smtpAttempts tr).length
  (err, tr ++ [Event.sendMail call err])

/-- The two ways a run ends early: `log.Fatal`/`log.Fatalln` with the values it
prints, and the run-time failure of an index expression. -/
inductive Abort where
  | fatal (args : List GoString)
  | indexOutOfRange
  deriving DecidableEq

/-! ## `Message` and `Send` -/

/-- The `Message` struct; the fields `to` and `from` are written `to_` and
`from_`. -/
structure Message where
  to_ : GoString
  from_ : GoString
  subject : GoString
  body : GoString
  deriving DecidableEq

/-- The value `msg` built in `Send` (lines 173-178). -/
def Message.msg (m : Message) : GoString :=
  "From: ".toList ++ m.from_ ++ "\r\n".toList ++
    "To: ".toList ++ m.to_ ++ "\r\n".toList ++
    "Subject: ".toList ++ m.subject ++ "\r\n".toList ++
    "MIME-version: 1.0;\nContent-Type: text/html; charset=\"UTF-8\";\n\n".toList ++
    "\r\n".toList ++
    m.body ++ "\r\n".toList

/-- The arguments `Send` passes to every `smtp.SendMail` call. -/
def Message.call (m : Message) (username password hostname port : GoString) : SendCall where
  addr := hostname ++ ":".toList ++ port
  auth := PlainAuth.mk [] username password hostname
  from_ := username
  to_ := [m.to_]
  msg := m.msg

/-- The retry loop of `Send`:
`for err != nil && count <= 10 { time.Sleep(2s); err = smtp.SendMail(...); count++ }`. -/
def retryLoop (t : Transport) (call : SendCall) (err : Option GoError) (count : Nat)
    (tr : Trace) : Option GoError × Trace :=
  if h : err ≠ none ∧ count ≤ 10 then
    let r := sendMail t call (tr ++ [Event.sleep 2])
    retryLoop t call r.1 (count + 1) r.2
  else
    (err, tr)
termination_by 11 - count
decreasing_by omega

/-- The method `Send` for sending email: one attempt, the retry loop, and the
report. -/
def Message.Send (m : Message) (username password hostname port : GoString)
    (t : Transport) (tr : Trace) : Trace :=
  let call := m.call username password hostname port
  let r0 := sendMail t call tr
  let r := retryLoop t call r0.1 0 r0.2
  match r.1 with
  | some err =>
    r.2 ++ [Event.println [err], Event.println ["Failed sending to ".toList, m.to_]]
  | none => r.2 ++ [Event.println ["Email Sent to ".toList, m.to_]]

/-! ## `ParseTemplate` -/

/-- A parsed template, as the text that `tmpl.Execute(buf, data)` leaves in the
buffer for `data = struct{Name string}{name}` (the error `Execute` may return is
dropped by `ParseTemplate`). -/
abbrev Template := GoString → GoString

/-- The function `ParseTemplate`: `templateFile` is the result of
`template.ParseFiles(templateFileName)`; an error there is fatal. -/
def ParseTemplate (templateFile : Except GoError Template) (name : GoString) :
    Except Abort GoString :=
  match templateFile with
  | Except.error err => Except.error (Abort.fatal ["Couldn't open the template".toList, err])
  | Except.ok tmpl => Except.ok (tmpl name)

/-! ## `ReadRecipient` -/

/-- What one call of `Read` on a `csv.Reader` returns before `io.EOF`. -/
inductive ReadResult where
  | record (fields : List GoString)
  | error (err : GoError)
  deriving DecidableEq

/-- A CSV input: the result of `os.Open`, and when the file opens the results of
the successive calls of `Read`, up to `io.EOF`. -/
abbrev CsvFile := Except GoError (List ReadResult)

/-- The results of the successive calls of `Read`, up to `io.EOF`, on a reader
made by `csv.NewReader` and left with its default settings, for an input whose
lines parse into the given rows.  With `FieldsPerRecord` at its default 0 the
reader takes the number of fields of the first record as the number every later
record must have, and returns the error `ErrFieldCount` for a record with
another number of fields.  The error text omits the line number the library
puts in front. -/
def csvRead : List (List GoString) → List ReadResult
  | [] => []
  | first :: rest =>
    ReadResult.record first ::
      rest.map fun row =>
        if row.length = first.length then ReadResult.record row
        else ReadResult.error "wrong number of fields".toList

/-- The variables `username, password, hostname, port` of `ReadRecipient`. -/
structure Credentials where
  username : GoString
  password : GoString
  hostname : GoString
  port : GoString
  deriving DecidableEq

/-- The first loop of `ReadRecipient` (lines 102-115): every record overwrites
the four variables. -/
def readConfig : List ReadResult → Credentials → Except Abort Credentials
  | [], c => Except.ok c
  | ReadResult.error err :: _, _ => Except.error (Abort.fatal [err])
  | ReadResult.record serverRecord :: rest, _ =>
    match serverRecord[0]?, serverRecord[1]?, serverRecord[2]?, serverRecord[3]? with
    | some username, some password, some hostname, some port =>
      readConfig rest ⟨username, password, hostname, port⟩
    | _, _, _, _ => Except.error Abort.indexOutOfRange

/-- The second loop of `ReadRecipient` (lines 126-159). -/
def recipientLoop (templateFile : Except GoError Template) (subject : GoString)
    (c : Credentials) (t : Transport) : List ReadResult → Trace → Option Abort × Trace
  | [], tr => (none, tr)
  | ReadResult.error err :: _, tr => (some (Abort.fatal [err]), tr)
  | ReadResult.record record :: rest, tr =>
    match record[1]? with
    | none => (some Abort.indexOutOfRange, tr)
    | some address =>
      match ValidateFormat address with
      | some _ =>
        recipientLoop templateFile subject c t rest
          (tr ++ [Event.println
            ["Email address (".toList, address, ") is not valid - Skipping...".toList]])
      | none =>
        match record[0]? with
        | none => (some Abort.indexOutOfRange, tr)
        | some name =>
          match ParseTemplate templateFile name with
          | Except.error a => (some a, tr)
          | Except.ok body =>
            let m : Message :=
              { to_ := address, subject := subject, body := body,
                from_ := "mail@example.com".toList }
            recipientLoop templateFile subject c t rest
              (m.Send c.username c.password c.hostname c.port t tr)

/-- The function `ReadRecipient`: the result is `none` when the function runs to completion
and `some a` when the run is aborted, together with the trace at that point. -/
def ReadRecipient (recipientListFile : CsvFile) (templateFile : Except GoError Template)
    (configFile : CsvFile) (subject : GoString) (t : Transport) (tr : Trace) :
    Option Abort × Trace :=
  match configFile with
  | Except.error err => (some (Abort.fatal ["Couldn't open the csv file".toList, err]), tr)
  | Except.ok serverRecords =>
    match readConfig serverRecords ⟨[], [], [], []⟩ with
    | Except.error a => (some a, tr)
    | Except.ok c =>
      match recipientListFile with
      | Except.error err =>
        (some (Abort.fatal ["Couldn't open the csv file".toList, err]), tr)
      | Except.ok records => recipientLoop templateFile subject c t records tr

/-- The credentials a configuration row sets (`serverRecord[0]` to
`serverRecord[3]`). -/
def rowCredentials (serverRecord : List GoString) : Credentials :=
  ⟨serverRecord.getD 0 [], serverRecord.getD 1 [], serverRecord.getD 2 [],
    serverRecord.getD 3 []⟩

/-! ## The end-to-end scenario of the specification -/

/-- The configuration file with the single row `u,p,smtp.example.com,587`. -/
def scenarioConfig : CsvFile :=
  Except.ok [ReadResult.record
    ["u".toList, "p".toList, "smtp.example.com".toList, "587".toList]]

/-- The recipient rows `Ann,ann@example.com` and `Bad,not-an-email`. -/
def scenarioRows : List (List GoString) :=
  [["Ann".toList, "ann@example.com".toList], ["Bad".toList, "not-an-email".toList]]

/-- The credentials of the scenario. -/
def scenarioCredentials : Credentials :=
  ⟨"u".toList, "p".toList, "smtp.example.com".toList, "587".toList⟩

/-- A transport on which every attempt succeeds. -/
def succeedingTransport : Transport := fun _ => none

/-- A transport on which every attempt fails. -/
def failingTransport : Transport := fun _ => some "connection refused".toList

/-- Recipient rows of two, three and two fields, each with an address that
`ValidateFormat` accepts. -/
def unevenRecipientRows : List (List GoString) :=
  [["Ann".toList, "ann@example.com".toList],
   ["Carl".toList, "carl@example.com".toList, "x".toList],
   ["Dan".toList, "dan@example.com".toList]]

/-- Configuration rows of four and five fields. -/
def unevenConfigRows : List (List GoString) :=
  [["old".toList, "x".toList, "old.example.com".toList, "25".toList],
   ["u".toList, "p".toList, "smtp.example.com".toList, "587".toList, "extra".toList]]

/-- The subject `main` passes to `ReadRecipient`. -/
def mainSubject : GoString := "Test Mail".toList

/-- The template text of the scenario, `Hello ` followed by the action
`Name` between double braces, as the specification writes it. -/
def scenarioTemplateText : GoString := "Hello \x7b\x7bName\x7d\x7d".toList

/-- The template text with the field action `.Name` between double braces, as
the comment in `ReadRecipient` writes it. -/
def fieldTemplateText : GoString := "Hello \x7b\x7b.Name\x7d\x7d".toList

/-- The message of the scenario for the row of Ann. -/
def scenarioMessage : Message :=
  { to_ := "ann@example.com".toList, from_ := "mail@example.com".toList,
    subject := mainSubject, body := "Hello Ann".toList }

/-! ## Line structure of a message -/

/-- Whether every line feed of the string is immediately preceded by a carriage
return; `prev` is the character before the string, if any. -/
def crlfOnly : Option Char → GoString → Bool
  | _, [] => true
  | prev, c :: rest => (c != '\n' || prev == some '\r') && crlfOnly (some c) rest

/-- The lines of a text, where a line ends with a line feed or with a carriage
return and a line feed; the last element is what follows the last line end. -/
def splitLines : GoString → List GoString
  | [] => [[]]
  | '\n' :: rest => [] :: splitLines rest
  | '\r' :: '\n' :: rest => [] :: splitLines rest
  | c :: rest =>
    match splitLines rest with
    | l :: ls => (c :: l) :: ls
    | [] => [[c]]

/-! ## `text/template`: a fragment

`template.ParseFiles` and `Execute` belong to Go's standard library.  The model
covers templates made of literal text and of actions, written between double
braces, that consist of one field of the data (a dot followed by an identifier)
or of one bare identifier, which the library reads as a function call and
rejects at parse time when no such function is defined.  Every other action is
outside the model. -/

/-- A node of a parsed template of the fragment. -/
inductive TemplateNode where
  | text (s : GoString)
  | field (name : GoString)
  deriving DecidableEq

/-- The result of parsing a template text: the nodes, a parse error, or a text
outside the modelled fragment. -/
inductive ParseResult where
  | parsed (nodes : List TemplateNode)
  | error (err : GoError)
  | unmodelled
  deriving DecidableEq

/-- Splits a text at the first occurrence of the two-character delimiter `a b`. -/
def splitOnPair (a b : Char) : GoString → Option (GoString × GoString)
  | [] => none
  | [_] => none
  | c :: d :: rest =>
    if c = a ∧ d = b then some ([], rest)
    else
      match splitOnPair a b (d :: rest) with
      | some (p, q) => some (c :: p, q)
      | none => none

/-- An identifier of the fragment: ASCII letters, digits and underscores, not
starting with a digit. -/
def isIdentifier (s : GoString) : Bool :=
  match s with
  | [] => false
  | c :: rest => (c.isAlpha || c == '_') && rest.all fun d => d.isAlphanum || d == '_'

/-- The keywords, constants and predefined functions of `text/template`. -/
def reservedWords : List GoString :=
  ["if", "else", "end", "range", "with", "define", "template", "block", "break", "continue",
   "nil", "true", "false", "and", "call", "html", "index", "slice", "js", "len", "not", "or",
   "print", "printf", "println", "urlquery", "eq", "ge", "gt", "le", "lt", "ne"].map
    String.toList

/-- Removes the spaces around the text of an action. -/
def trimSpaces (s : GoString) : GoString :=
  ((s.dropWhile fun c => c == ' ').reverse.dropWhile fun c => c == ' ').reverse

/-- The reading of one action. -/
def parseAction (action : GoString) : ParseResult :=
  match trimSpaces action with
  | '.' :: name =>
    if isIdentifier name then ParseResult.parsed [TemplateNode.field name]
    else ParseResult.unmodelled
  | ident =>
    if isIdentifier ident then
      if ident ∈ reservedWords then ParseResult.unmodelled
      else ParseResult.error ("function \"".toList ++ ident ++ "\" not defined".toList)
    else ParseResult.unmodelled

/-- Parsing of a template text; `fuel` bounds the number of actions and is never
exhausted when it exceeds the length of the text. -/
def parseNodes : Nat → GoString → ParseResult
  | 0, _ => ParseResult.unmodelled
  | fuel + 1, text =>
    match splitOnPair (Char.ofNat 123) (Char.ofNat 123) text with
    | none => ParseResult.parsed (if text = [] then [] else [TemplateNode.text text])
    | some (pre, rest) =>
      match splitOnPair (Char.ofNat 125) (Char.ofNat 125) rest with
      | none => ParseResult.error "unclosed action".toList
      | some (action, post) =>
        match parseAction action with
        | ParseResult.parsed nodes =>
          (match parseNodes fuel post with
           | ParseResult.parsed more =>
             ParseResult.parsed
               ((if pre = [] then [] else [TemplateNode.text pre]) ++ nodes ++ more)
           | other => other)
        | other => other

/-- The text `Execute` writes for `data = struct{Name string}{name}`: a field
other than `Name` is an execution error, which stops the output there (the
error itself is dropped by `ParseTemplate`). -/
def execNodes (name : GoString) : List TemplateNode → GoString
  | [] => []
  | TemplateNode.text s :: rest => s ++ execNodes name rest
  | TemplateNode.field f :: rest =>
    if f = "Name".toList then name ++ execNodes name rest else []

/-- The result of `template.ParseFiles` on a file with the given contents, when
the contents are in the modelled fragment (`none` when they are not).  The
error message omits the template name and line that the library puts in front. -/
def loadTemplate (text : GoString) : Option (Except GoError Template) :=
  match parseNodes (text.length + 1) text with
  | ParseResult.parsed nodes => some (Except.ok fun name => execNodes name nodes)
  | ParseResult.error err => some (Except.error err)
  | ParseResult.unmodelled => none

/-- The parsed form of `fieldTemplateText`. -/
def parsedFieldTemplate : Template := fun name =>
  execNodes name [TemplateNode.text "Hello ".toList, TemplateNode.field "Name".toList]

/-! ## The address format, as the specification words it -/

/-- A letter `a-z` or `A-Z`. -/
def isLetter (c : Char) : Prop := ('a' ≤ c ∧ c ≤ 'z') ∨ ('A' ≤ c ∧ c ≤ 'Z')

/-- A digit `0-9`. -/
def isDigit (c : Char) : Prop := '0' ≤ c ∧ c ≤ '9'

/-- The punctuation allowed in the local part:
. ! # $ % & (apostrophe) * + / = ? ^ _ (backquote) (braces) | ~ and the hyphen. -/
def localPunctuation : List Char :=
  ['.', '!', '#', '$', '%', '&', Char.ofNat 39, '*', '+', '/', '=', '?', '^', '_',
   Char.ofNat 96, Char.ofNat 123, '|', Char.ofNat 125, '~', '-']

/-- A character allowed in the local part. -/
def isLocalChar (c : Char) : Prop := isLetter c ∨ isDigit c ∨ c ∈ localPunctuation

/-- A character allowed in a domain label. -/
def isLabelChar (c : Char) : Prop := isLetter c ∨ isDigit c ∨ c = '-'

/-- A domain label: 1 to 63 letters, digits or hyphens, neither starting nor
ending with a hyphen. -/
def ValidLabel (l : GoString) : Prop :=
  1 ≤ l.length ∧ l.length ≤ 63 ∧ (∀ c ∈ l, isLabelChar c) ∧
    l.head? ≠ some '-' ∧ l.getLast? ≠ some '-'

/-- A domain: one or more labels joined by single dots. -/
def ValidDomain (d : GoString) : Prop :=
  ∃ labels : List GoString, labels ≠ [] ∧ d = List.intercalate ['.'] labels ∧
    ∀ l ∈ labels, ValidLabel l

/-- The form `local '@' domain` with a non-empty local part of allowed characters
and a valid domain. -/
def WellFormedAddress (s : GoString) : Prop :=
  ∃ loc dom : GoString, s = loc ++ '@' :: dom ∧ loc ≠ [] ∧ (∀ c ∈ loc, isLocalChar c) ∧
    ValidDomain dom

/-! ## Auxiliary definitions for the statements -/

/-- The address field of a recipient row (`record[1]`). -/
def rowAddress (record : List GoString) : GoString := record.getD 1 []

/-- The name field of a recipient row (`record[0]`). -/
def rowName (record : List GoString) : GoString := record.getD 0 []

/-- Whether `ValidateFormat` accepts the address. -/
def accepted (address : GoString) : Bool := (ValidateFormat address).isNone

/-- The message `ReadRecipient` builds for a row, given the parsed template. -/
def rowMessage (tmpl : Template) (subject : GoString) (record : List GoString) : Message :=
  { to_ := rowAddress record, subject := subject, body := tmpl (rowName record),
    from_ := "mail@example.com".toList }

/-- The events of `j` consecutive rounds of the retry loop, the first of which
makes SMTP attempt number `n` of the run. -/
def retryEvents (t : Transport) (call : SendCall) : Nat → Nat → Trace
  | _, 0 => []
  | n, j + 1 => Event.sleep 2 :: Event.sendMail call (t n) :: retryEvents t call (n + 1) j

/-! ## Lemmas on traces -/

theorem smtpAttempts_append (a b : Trace) :
    smtpAttempts (a ++ b) = smtpAttempts a ++ smtpAttempts b := by
  simp [smtpAttempts, List.filterMap_append]

theorem reported_append (a b : Trace) : reported (a ++ b) = reported a ++ reported b := by
  simp [reported, List.filterMap_append]

theorem smtpAttempts_retryEvents (t : Transport) (call : SendCall) (j : Nat) :
    ∀ n, smtpAttempts (retryEvents t call n j) = (List.range j).map fun i => (call, t (n + i)) := by
  induction j with
  | zero => intro n; simp [retryEvents, smtpAttempts]
  | succ j ih =>
    intro n
    have h := ih (n + 1)
    simp only [smtpAttempts] at h
    simp only [retryEvents, smtpAttempts, List.filterMap_cons, h, List.range_succ_eq_map,
      List.map_cons, List.map_map]
    simp [Function.comp_def, Nat.add_assoc, Nat.add_comm 1]

theorem reported_retryEvents (t : Transport) (call : SendCall) (j : Nat) :
    ∀ n, reported (retryEvents t call n j) = [] := by
  induction j with
  | zero => intro n; simp [retryEvents, reported]
  | succ j ih =>
    intro n
    have h := ih (n + 1)
    simp only [reported] at h
    simp only [retryEvents, reported]
    rw [List.filterMap_cons_none rfl, List.filterMap_cons_none rfl]
    exact h

/-- The SMTP attempts of a first attempt followed by `k` rounds of the loop. -/
theorem smtpAttempts_attempt_rounds (t : Transport) (call : SendCall) (n k : Nat)
    (rest : Trace) (hrest : smtpAttempts rest = []) :
    smtpAttempts (Event.sendMail call (t n) :: retryEvents t call (n + 1) k ++ rest) =
      (List.range (k + 1)).map fun i => (call, t (n + i)) := by
  rw [show Event.sendMail call (t n) :: retryEvents t call (n + 1) k ++ rest =
      [Event.sendMail call (t n)] ++ (retryEvents t call (n + 1) k ++ rest) from rfl,
    smtpAttempts_append, smtpAttempts_append, smtpAttempts_retryEvents, hrest,
    List.range_succ_eq_map]
  simp [smtpAttempts, Function.comp_def, Nat.add_assoc, Nat.add_comm 1]

theorem getLast?_cons_append_pair {α : Type} (a : α) (l : List α) (x y : α) :
    (a :: (l ++ [x, y])).getLast? = some y := by
  rw [show a :: (l ++ [x, y]) = (a :: l ++ [x]) ++ [y] by simp]
  exact List.getLast?_concat _

theorem getLast?_cons_append_single {α : Type} (a : α) (l : List α) (y : α) :
    (a :: (l ++ [y])).getLast? = some y := by
  rw [show a :: (l ++ [y]) = (a :: l) ++ [y] by simp]
  exact List.getLast?_concat _

theorem mem_retryEvents (t : Transport) (call : SendCall) (j : Nat) :
    ∀ (n : Nat) (e : Event), e ∈ retryEvents t call n j →
      e = Event.sleep 2 ∨ ∃ err, e = Event.sendMail call err := by
  induction j with
  | zero => intro n e he; simp [retryEvents] at he
  | succ j ih =>
    intro n e he
    simp only [retryEvents, List.mem_cons] at he
    rcases he with h | h | h
    · exact Or.inl h
    · exact Or.inr ⟨_, h⟩
    · exact ih _ _ h

/-! ## Lemmas on the retry loop -/

theorem retryLoop_nil (t : Transport) (call : SendCall) (count : Nat) (tr : Trace) :
    retryLoop t call none count tr = (none, tr) := by
  rw [retryLoop]; simp

theorem retryLoop_step (t : Transport) (call : SendCall) (e : GoError) (count : Nat)
    (tr : Trace) (h : count ≤ 10) :
    retryLoop t call (some e) count tr =
      retryLoop t call (t (smtpAttempts tr).length) (count + 1)
        (tr ++ [Event.sleep 2, Event.sendMail call (t (smtpAttempts tr).length)]) := by
  rw [retryLoop]
  simp [h, sendMail, smtpAttempts_append, smtpAttempts]

theorem retryLoop_stop (t : Transport) (call : SendCall) (err : Option GoError) (count : Nat)
    (tr : Trace) (h : 10 < count) : retryLoop t call err count tr = (err, tr) := by
  rw [retryLoop]
  simp [Nat.not_le.mpr h]

/-- When every attempt fails, the loop runs until `count` exceeds 10. -/
theorem retryLoop_all_fail (t : Transport) (call : SendCall) (d : Nat) :
    ∀ (count : Nat) (e : GoError) (tr : Trace), count + d = 11 →
      (∀ i, i < d → t ((smtpAttempts tr).length + i) ≠ none) →
      (retryLoop t call (some e) count tr).1 ≠ none ∧
        (retryLoop t call (some e) count tr).2 =
          tr ++ retryEvents t call (smtpAttempts tr).length d := by
  induction d with
  | zero =>
    intro count e tr hc _
    rw [retryLoop_stop t call _ count tr (by omega)]
    simp [retryEvents]
  | succ d ih =>
    intro count e tr hc hfail
    rw [retryLoop_step t call e count tr (by omega)]
    have h0 := hfail 0 (by omega)
    obtain ⟨e1, he1⟩ := Option.ne_none_iff_exists'.mp h0
    simp only [Nat.add_zero] at he1
    rw [he1]
    have hlen : (smtpAttempts (tr ++ [Event.sleep 2, Event.sendMail call (some e1)])).length =
        (smtpAttempts tr).length + 1 := by
      simp [smtpAttempts_append, smtpAttempts]
    have := ih (count + 1) e1 (tr ++ [Event.sleep 2, Event.sendMail call (some e1)]) (by omega)
      (by
        intro i hi
        rw [hlen]
        have := hfail (i + 1) (by omega)
        rwa [show (smtpAttempts tr).length + (i + 1) = (smtpAttempts tr).length + 1 + i by omega]
          at this)
    rw [hlen] at this
    refine ⟨this.1, ?_⟩
    rw [this.2]
    simp [retryEvents, he1]

/-- When the first success is in round `j` of the loop, the loop stops there. -/
theorem retryLoop_success (t : Transport) (call : SendCall) (j : Nat) :
    ∀ (count : Nat) (e : GoError) (tr : Trace), count + j ≤ 10 →
      (∀ i, i < j → t ((smtpAttempts tr).length + i) ≠ none) →
      t ((smtpAttempts tr).length + j) = none →
      retryLoop t call (some e) count tr =
        (none, tr ++ retryEvents t call (smtpAttempts tr).length (j + 1)) := by
  induction j with
  | zero =>
    intro count e tr hc _ hs
    rw [retryLoop_step t call e count tr (by omega)]
    simp only [Nat.add_zero] at hs
    rw [hs, retryLoop_nil]
    simp [retryEvents, hs]
  | succ j ih =>
    intro count e tr hc hfail hs
    rw [retryLoop_step t call e count tr (by omega)]
    have h0 := hfail 0 (by omega)
    obtain ⟨e1, he1⟩ := Option.ne_none_iff_exists'.mp h0
    simp only [Nat.add_zero] at he1
    rw [he1]
    have hlen : (smtpAttempts (tr ++ [Event.sleep 2, Event.sendMail call (some e1)])).length =
        (smtpAttempts tr).length + 1 := by
      simp [smtpAttempts_append, smtpAttempts]
    have := ih (count + 1) e1 (tr ++ [Event.sleep 2, Event.sendMail call (some e1)]) (by omega)
      (by
        intro i hi
        rw [hlen]
        have := hfail (i + 1) (by omega)
        rwa [show (smtpAttempts tr).length + (i + 1) = (smtpAttempts tr).length + 1 + i by omega]
          at this)
      (by
        rw [hlen]
        rwa [show (smtpAttempts tr).length + (j + 1) = (smtpAttempts tr).length + 1 + j by omega]
          at hs)
    rw [this, hlen]
    simp [retryEvents, he1]

/-! ## Lemmas on `Send` -/

/-- The trace of `Send` when the first `k` attempts fail and the next succeeds. -/
theorem Send_eq_of_success (m : Message) (username password hostname port : GoString)
    (t : Transport) (tr : Trace) (k : Nat) (hk : k ≤ 11)
    (hfail : ∀ i, i < k → t ((smtpAttempts tr).length + i) ≠ none)
    (hs : t ((smtpAttempts tr).length + k) = none) :
    m.Send username password hostname port t tr =
      tr ++ (Event.sendMail (m.call username password hostname port) (t (smtpAttempts tr).length) ::
        retryEvents t (m.call username password hostname port) ((smtpAttempts tr).length + 1) k ++
          [Event.println ["Email Sent to ".toList, m.to_]]) := by
  have hlen : ∀ x, (smtpAttempts (tr ++
      [Event.sendMail (m.call username password hostname port) x])).length =
        (smtpAttempts tr).length + 1 := by
    intro x; simp [smtpAttempts_append, smtpAttempts]
  cases k with
  | zero =>
    simp only [Nat.add_zero] at hs
    simp only [Message.Send, sendMail, hs, retryLoop_nil, retryEvents]
    simp
  | succ j =>
    obtain ⟨e, he⟩ := Option.ne_none_iff_exists'.mp (hfail 0 (by omega))
    simp only [Nat.add_zero] at he
    have hloop := retryLoop_success t (m.call username password hostname port) j 0 e
      (tr ++ [Event.sendMail (m.call username password hostname port) (some e)]) (by omega)
      (by
        intro i hi
        rw [hlen]
        have := hfail (i + 1) (by omega)
        rwa [show (smtpAttempts tr).length + (i + 1) = (smtpAttempts tr).length + 1 + i by omega]
          at this)
      (by
        rw [hlen]
        rwa [show (smtpAttempts tr).length + (j + 1) = (smtpAttempts tr).length + 1 + j by omega]
          at hs)
    simp only [Message.Send, sendMail, he, hloop, hlen]
    simp

/-- The trace of `Send` when the first twelve attempts all fail. -/
theorem Send_eq_of_all_fail (m : Message) (username password hostname port : GoString)
    (t : Transport) (tr : Trace)
    (hfail : ∀ i, i < 12 → t ((smtpAttempts tr).length + i) ≠ none) :
    ∃ e : GoError, m.Send username password hostname port t tr =
      tr ++ (Event.sendMail (m.call username password hostname port) (t (smtpAttempts tr).length) ::
        retryEvents t (m.call username password hostname port) ((smtpAttempts tr).length + 1) 11 ++
          [Event.println [e], Event.println ["Failed sending to ".toList, m.to_]]) := by
  have hlen : ∀ x, (smtpAttempts (tr ++
      [Event.sendMail (m.call username password hostname port) x])).length =
        (smtpAttempts tr).length + 1 := by
    intro x; simp [smtpAttempts_append, smtpAttempts]
  obtain ⟨e, he⟩ := Option.ne_none_iff_exists'.mp (hfail 0 (by omega))
  simp only [Nat.add_zero] at he
  have hloop := retryLoop_all_fail t (m.call username password hostname port) 11 0 e
    (tr ++ [Event.sendMail (m.call username password hostname port) (some e)]) (by omega)
    (by
      intro i hi
      rw [hlen]
      have := hfail (i + 1) (by omega)
      rwa [show (smtpAttempts tr).length + (i + 1) = (smtpAttempts tr).length + 1 + i by omega]
        at this)
  obtain ⟨e2, he2⟩ := Option.ne_none_iff_exists'.mp hloop.1
  refine ⟨e2, ?_⟩
  have h2 := hloop.2
  rw [hlen] at h2
  simp only [Message.Send, sendMail, he, he2, h2]
  simp

/-! ## Claims about `Send` -/

/-- C1 (as the code behaves): against a transport that fails on every attempt,
`Send` makes twelve SMTP attempts (one initial attempt and eleven rounds of the
retry loop, since the loop condition is `count <= 10` with `count` starting at
0), each with the same arguments and each failing, and ends by printing the
"Failed sending to" line. -/
theorem Send_failing_transport_twelve_attempts (m : Message)
    (username password hostname port : GoString) (t : Transport) (tr : Trace)
    (hfail : ∀ n, t n ≠ none) :
    ∃ evs : Trace, m.Send username password hostname port t tr = tr ++ evs ∧
      smtpAttempts evs =
        (List.range 12).map
          (fun i => (m.call username password hostname port, t ((smtpAttempts tr).length + i))) ∧
      (smtpAttempts evs).length = 12 ∧
      evs.getLast? = some (Event.println ["Failed sending to ".toList, m.to_]) := by
  obtain ⟨e, he⟩ := Send_eq_of_all_fail m username password hostname port t tr
    (fun i _ => hfail _)
  have hatt := smtpAttempts_attempt_rounds t (m.call username password hostname port)
    (smtpAttempts tr).length 11
    [Event.println [e], Event.println ["Failed sending to ".toList, m.to_]] rfl
  refine ⟨_, he, hatt, ?_, ?_⟩
  · rw [hatt]
    simp
  · exact getLast?_cons_append_pair _ _ _ _

theorem Send_failing_transport_twelve_attempts_witness :
    (∀ n : Nat, (fun _ => some "timeout".toList : Transport) n ≠ none) ∧
    ∃ evs : Trace,
      (Message.mk "ann@example.com".toList "mail@example.com".toList "Test Mail".toList
          "Hello Ann".toList).Send "u".toList "p".toList "smtp.example.com".toList
          "587".toList (fun _ => some "timeout".toList) [] = [] ++ evs ∧
      smtpAttempts evs =
        (List.range 12).map
          (fun i =>
            ((Message.mk "ann@example.com".toList "mail@example.com".toList "Test Mail".toList
                "Hello Ann".toList).call "u".toList "p".toList "smtp.example.com".toList
                "587".toList,
              (fun _ => some "timeout".toList : Transport)
                ((smtpAttempts ([] : Trace)).length + i))) ∧
      (smtpAttempts evs).length = 12 ∧
      evs.getLast? = some (Event.println ["Failed sending to ".toList, "ann@example.com".toList]) :=
  ⟨fun _ => by simp,
    Send_failing_transport_twelve_attempts _ _ _ _ _ _ _ (fun _ => by simp)⟩

/-- C6: when attempt number `k` (with `1 ≤ k ≤ 11`) is the first one that
succeeds, `Send` makes exactly `k` SMTP attempts, the last of which is the
successful one, and ends by printing the "Email Sent to" line; no "Failed
sending to" line is printed. -/
theorem Send_first_success_at (m : Message) (username password hostname port : GoString)
    (t : Transport) (tr : Trace) (k : Nat) (hk1 : 1 ≤ k) (hk11 : k ≤ 11)
    (hfail : ∀ i, i + 1 < k → t ((smtpAttempts tr).length + i) ≠ none)
    (hs : t ((smtpAttempts tr).length + (k - 1)) = none) :
    ∃ evs : Trace, m.Send username password hostname port t tr = tr ++ evs ∧
      smtpAttempts evs =
        (List.range k).map
          (fun i => (m.call username password hostname port, t ((smtpAttempts tr).length + i))) ∧
      (smtpAttempts evs).length = k ∧
      (smtpAttempts evs).getLast? = some (m.call username password hostname port, none) ∧
      evs.getLast? = some (Event.println ["Email Sent to ".toList, m.to_]) ∧
      Event.println ["Failed sending to ".toList, m.to_] ∉ evs := by
  obtain ⟨j, rfl⟩ : ∃ j, k = j + 1 := ⟨k - 1, by omega⟩
  simp only [Nat.add_sub_cancel] at hs
  have he := Send_eq_of_success m username password hostname port t tr j (by omega)
    (fun i hi => hfail i (by omega)) hs
  have hatt := smtpAttempts_attempt_rounds t (m.call username password hostname port)
    (smtpAttempts tr).length j [Event.println ["Email Sent to ".toList, m.to_]] rfl
  refine ⟨_, he, hatt, ?_, ?_, ?_, ?_⟩
  · rw [hatt]; simp
  · rw [hatt, List.range_succ, List.map_append]
    simp [List.getLast?_concat, hs]
  · exact getLast?_cons_append_single _ _ _
  · intro hmem
    simp only [List.mem_cons, List.mem_append, List.mem_singleton] at hmem
    rcases hmem with (h | h) | h | h
    · cases h
    · rcases mem_retryEvents _ _ _ _ _ h with h2 | ⟨_, h2⟩ <;> cases h2
    · have := (List.cons.inj (Event.println.inj h)).1
      revert this
      decide
    · cases h

theorem Send_first_success_at_witness :
    (1 ≤ 3 ∧ 3 ≤ 11) ∧
    (∀ i, i + 1 < 3 →
      (fun n => if n < 2 then some "timeout".toList else none : Transport)
        ((smtpAttempts ([] : Trace)).length + i) ≠ none) ∧
    ∃ evs : Trace,
      (Message.mk "ann@example.com".toList "mail@example.com".toList "Test Mail".toList
          "Hello Ann".toList).Send "u".toList "p".toList "smtp.example.com".toList
          "587".toList (fun n => if n < 2 then some "timeout".toList else none) [] = [] ++ evs ∧
      (smtpAttempts evs).length = 3 ∧
      evs.getLast? = some (Event.println ["Email Sent to ".toList, "ann@example.com".toList]) :=
  ⟨by decide, fun i hi => by simp [smtpAttempts]; omega,
    (Send_first_success_at _ _ _ _ _ (fun n => if n < 2 then some "timeout".toList else none)
        [] 3 (by decide) (by decide) (fun i hi => by simp [smtpAttempts]; omega)
        (by simp [smtpAttempts])).imp
      fun _ h => ⟨h.1, h.2.2.1, h.2.2.2.2.1⟩⟩

/-! ## Correctness of the matcher with respect to the denoted language -/

namespace Regex

theorem flatten_eq_nil_of_forall {α : Type} (pre : List (List α)) (h : ∀ p ∈ pre, p = []) :
    pre.flatten = [] := by
  induction pre with
  | nil => rfl
  | cons p ps ih =>
    have hp : p = [] := h p (List.mem_cons_self _ _)
    have hps := ih (fun q hq => h q (List.mem_cons_of_mem _ hq))
    simp [hp, hps]

/-- In a list of parts whose concatenation starts with `c`, the first non-empty
part starts with `c`. -/
theorem exists_first_nonempty {α : Type} (c : α) (s : List α) :
    ∀ parts : List (List α), c :: s = parts.flatten →
      ∃ pre u post, parts = pre ++ (c :: u) :: post ∧ (∀ p ∈ pre, p = []) ∧
        s = u ++ post.flatten := by
  intro parts
  induction parts with
  | nil => intro h; simp at h
  | cons p ps ih =>
    intro h
    cases p with
    | nil =>
      simp only [List.flatten_cons, List.nil_append] at h
      obtain ⟨pre, u, post, hps, hpre, hs⟩ := ih h
      refine ⟨[] :: pre, u, post, by simp [hps], ?_, hs⟩
      intro q hq
      rcases List.mem_cons.mp hq with h1 | h1
      · exact h1
      · exact hpre q h1
    | cons x u =>
      simp only [List.flatten_cons, List.cons_append, List.cons.injEq] at h
      refine ⟨[], u, ps, by simp [h.1], by simp, h.2⟩

theorem nullable_iff (r : Regex) : nullable r = true ↔ lang r [] := by
  induction r with
  | empty => simp [nullable, lang]
  | eps => simp [nullable, lang]
  | cls ranges => simp [nullable, lang]
  | cat a b iha ihb =>
    simp only [nullable, lang, Bool.and_eq_true, iha, ihb]
    constructor
    · rintro ⟨h1, h2⟩; exact ⟨[], [], rfl, h1, h2⟩
    · rintro ⟨u, v, huv, h1, h2⟩
      have hu : u = [] := (List.append_eq_nil.mp huv.symm).1
      have hv : v = [] := (List.append_eq_nil.mp huv.symm).2
      subst hu; subst hv
      exact ⟨h1, h2⟩
  | alt a b iha ihb => simp [nullable, lang, iha, ihb]
  | rep a lo hi iha =>
    simp only [nullable, lang, Bool.and_eq_true, Bool.or_eq_true, beq_iff_eq, iha]
    constructor
    · rintro ⟨h1, h2⟩
      have hb : ∀ h, hi = some h → lo ≤ h := by
        intro h hh; subst hh; simpa using h2
      rcases h1 with h1 | h1
      · subst h1
        exact ⟨[], by simp, by intro h hh; simp, by simp, by simp⟩
      · refine ⟨List.replicate lo [], by simp, ?_, ?_, ?_⟩
        · intro h hh; simpa using hb h hh
        · exact (flatten_eq_nil_of_forall _ (fun p hp => (List.mem_replicate.mp hp).2)).symm
        · intro p hp; rw [(List.mem_replicate.mp hp).2]; exact h1
    · rintro ⟨parts, hlo, hhi, hflat, hall⟩
      constructor
      · cases parts with
        | nil => left; simpa using hlo
        | cons p ps =>
          right
          have hp : p = [] := by
            have := hflat.symm
            simp only [List.flatten_cons] at this
            exact (List.append_eq_nil.mp this).1
          have := hall p (List.mem_cons_self _ _)
          rwa [hp] at this
      · cases hi with
        | none => rfl
        | some h => simpa using le_trans hlo (hhi h rfl)

theorem lang_deriv (r : Regex) : ∀ (c : Char) (s : GoString), lang (deriv r c) s ↔ lang r (c :: s) := by
  induction r with
  | empty => intro c s; simp [deriv, lang]
  | eps => intro c s; simp [deriv, lang]
  | cls ranges =>
    intro c s
    simp only [deriv, lang]
    by_cases hc : inClass ranges c = true
    · simp only [hc, if_true, lang]
      constructor
      · rintro rfl; exact ⟨c, rfl, hc⟩
      · rintro ⟨c1, h1, _⟩
        simp only [List.cons.injEq] at h1
        exact h1.2
    · simp only [hc, lang, false_iff]
      rintro ⟨c1, h1, h2⟩
      simp only [List.cons.injEq] at h1
      rw [← h1.1] at h2
      exact hc h2
  | cat a b iha ihb =>
    intro c s
    have key : lang (cat a b) (c :: s) ↔
        (∃ u v, s = u ++ v ∧ lang a (c :: u) ∧ lang b v) ∨ (lang a [] ∧ lang b (c :: s)) := by
      simp only [lang]
      constructor
      · rintro ⟨u, v, huv, h1, h2⟩
        cases u with
        | nil =>
          right
          simp only [List.nil_append] at huv
          rw [huv]; exact ⟨h1, h2⟩
        | cons x u1 =>
          left
          simp only [List.cons_append, List.cons.injEq] at huv
          refine ⟨u1, v, huv.2, ?_, h2⟩
          rw [huv.1]; exact h1
      · rintro (⟨u, v, huv, h1, h2⟩ | ⟨h1, h2⟩)
        · exact ⟨c :: u, v, by simp [huv], h1, h2⟩
        · exact ⟨[], c :: s, rfl, h1, h2⟩
    rw [key]
    simp only [deriv]
    by_cases hn : nullable a = true
    · simp only [hn, if_true, lang, iha, ihb]
      have := (nullable_iff a).mp hn
      constructor
      · rintro (h | h)
        · exact Or.inl h
        · exact Or.inr ⟨this, h⟩
      · rintro (h | h)
        · exact Or.inl h
        · exact Or.inr h.2
    · simp only [hn, lang, iha]
      constructor
      · intro h; exact Or.inl h
      · rintro (h | h)
        · exact h
        · exact absurd ((nullable_iff a).mpr h.1) hn
  | alt a b iha ihb => intro c s; simp [deriv, lang, iha, ihb]
  | rep a lo hi iha =>
    intro c s
    by_cases h0 : hi = some 0
    · subst h0
      simp only [deriv, lang, false_iff]
      rintro ⟨parts, _, hhi, hflat, _⟩
      have := hhi 0 rfl
      have hp : parts = [] := List.eq_nil_of_length_eq_zero (by omega)
      subst hp
      simp at hflat
    · have hd : deriv (rep a lo hi) c =
          cat (deriv a c) (rep a (lo - 1) (hi.map fun h => h - 1)) := by
        cases hi with
        | none => rfl
        | some h =>
          cases h with
          | zero => exact absurd rfl h0
          | succ n => rfl
      rw [hd]
      simp only [lang, iha]
      constructor
      · rintro ⟨u, v, huv, hu, parts, hlo, hhi, hflat, hall⟩
        refine ⟨(c :: u) :: parts, ?_, ?_, ?_, ?_⟩
        · simp only [List.length_cons]; omega
        · intro h hh
          subst hh
          have := hhi (h - 1) rfl
          have hne : h ≠ 0 := fun h' => h0 (by rw [h'])
          simp only [List.length_cons]; omega
        · simp [huv, hflat]
        · intro p hp
          rcases List.mem_cons.mp hp with h1 | h1
          · rw [h1]; exact hu
          · exact hall p h1
      · rintro ⟨parts, hlo, hhi, hflat, hall⟩
        obtain ⟨pre, u, post, hparts, hpre, hs⟩ := exists_first_nonempty c s parts hflat
        subst hparts
        refine ⟨u, post.flatten, hs, hall _ (by simp), pre ++ post, ?_, ?_, ?_, ?_⟩
        · simp only [List.length_append, List.length_cons] at hlo ⊢; omega
        · intro h hh
          cases hi with
          | none => simp at hh
          | some h1 =>
            simp only [Option.map_some', Option.some.injEq] at hh
            have := hhi h1 rfl
            simp only [List.length_append, List.length_cons] at this ⊢; omega
        · simp [flatten_eq_nil_of_forall pre hpre]
        · intro p hp
          apply hall
          rcases List.mem_append.mp hp with h1 | h1
          · exact List.mem_append_left _ h1
          · exact List.mem_append_right _ (List.mem_cons_of_mem _ h1)

/-- The derivative matcher decides membership in the denoted language. -/
theorem fullMatch_iff (s : GoString) : ∀ r : Regex, fullMatch r s = true ↔ lang r s := by
  induction s with
  | nil => intro r; simpa [fullMatch] using nullable_iff r
  | cons c s ih =>
    intro r
    have := ih (deriv r c)
    simp only [fullMatch, List.foldl_cons] at this ⊢
    rw [this, lang_deriv]

end Regex

/-! ## The language of the pattern of `ValidateFormat` -/

theorem inClass_single (p c : Char) : Regex.inClass [(p, p)] c = true ↔ c = p := by
  simp only [Regex.inClass, List.any_cons, List.any_nil, Bool.or_false, Bool.and_eq_true,
    decide_eq_true_eq]
  constructor
  · rintro ⟨h1, h2⟩; exact le_antisymm h2 h1
  · rintro rfl; exact ⟨le_refl _, le_refl _⟩

theorem inClass_cons (r : Char × Char) (rs : List (Char × Char)) (c : Char) :
    Regex.inClass (r :: rs) c = true ↔ (r.1 ≤ c ∧ c ≤ r.2) ∨ Regex.inClass rs c = true := by
  simp [Regex.inClass]

theorem inClass_cons_single (p : Char) (rs : List (Char × Char)) (c : Char) :
    Regex.inClass ((p, p) :: rs) c = true ↔ c = p ∨ Regex.inClass rs c = true := by
  rw [inClass_cons]
  constructor
  · rintro (⟨h1, h2⟩ | h)
    · exact Or.inl (le_antisymm h2 h1)
    · exact Or.inr h
  · rintro (rfl | h)
    · exact Or.inl ⟨le_refl _, le_refl _⟩
    · exact Or.inr h

theorem inClass_nil (c : Char) : Regex.inClass [] c = true ↔ False := by
  simp [Regex.inClass]

theorem inClass_alnum (c : Char) :
    Regex.inClass alnumClass c = true ↔ isLetter c ∨ isDigit c := by
  rw [alnumClass, inClass_cons, inClass_cons, inClass_cons, inClass_nil]
  simp only [isLetter, isDigit]
  tauto

theorem inClass_alnumHyphen (c : Char) :
    Regex.inClass alnumHyphenClass c = true ↔ isLabelChar c := by
  rw [alnumHyphenClass, inClass_cons, inClass_cons, inClass_cons, inClass_single]
  simp only [isLabelChar, isLetter, isDigit]
  tauto

theorem inClass_local (c : Char) : Regex.inClass localClass c = true ↔ isLocalChar c := by
  rw [localClass, inClass_cons, inClass_cons, inClass_cons]
  simp only [inClass_cons_single, inClass_nil, isLocalChar,
    isLetter, isDigit, localPunctuation, List.mem_cons, List.not_mem_nil, or_false, or_assoc]

theorem lang_quest (r : Regex) (s : GoString) :
    Regex.lang (Regex.quest r) s ↔ s = [] ∨ Regex.lang r s := by
  simp only [Regex.quest, Regex.lang]
  constructor
  · rintro ⟨parts, _, hhi, hflat, hall⟩
    have hlen := hhi 1 rfl
    match parts, hlen, hflat, hall with
    | [], _, hflat, _ => left; simpa using hflat
    | [p], _, hflat, hall =>
      right
      have : s = p := by simpa using hflat
      rw [this]; exact hall p (by simp)
    | _ :: _ :: _, hlen, _, _ => simp at hlen
  · rintro (h | h)
    · exact ⟨[], by simp, by simp, by simp [h], by simp⟩
    · exact ⟨[s], by simp, by simp, by simp, by simpa using h⟩

theorem flatten_singletons {P : Char → Prop} :
    ∀ parts : List GoString, (∀ p ∈ parts, ∃ c, p = [c] ∧ P c) →
      parts.flatten.length = parts.length ∧ ∀ c ∈ parts.flatten, P c := by
  intro parts
  induction parts with
  | nil => intro _; simp
  | cons p ps ih =>
    intro h
    obtain ⟨c, hc, hP⟩ := h p (List.mem_cons_self _ _)
    obtain ⟨h1, h2⟩ := ih (fun q hq => h q (List.mem_cons_of_mem _ hq))
    subst hc
    refine ⟨by simp [h1], ?_⟩
    intro x hx
    simp only [List.flatten_cons, List.singleton_append, List.mem_cons] at hx
    rcases hx with rfl | hx
    · exact hP
    · exact h2 x hx

theorem flatten_map_singleton (s : GoString) : (s.map fun c => [c]).flatten = s := by
  induction s with
  | nil => rfl
  | cons c s ih => simp [ih]

/-- Repetition of a bracket expression: any string of class members whose
length is within the bounds. -/
theorem lang_rep_cls (ranges : List (Char × Char)) (lo : Nat) (hi : Option Nat) (s : GoString) :
    Regex.lang (Regex.rep (Regex.cls ranges) lo hi) s ↔
      lo ≤ s.length ∧ (∀ h, hi = some h → s.length ≤ h) ∧
        ∀ c ∈ s, Regex.inClass ranges c = true := by
  simp only [Regex.lang]
  constructor
  · rintro ⟨parts, hlo, hhi, hflat, hall⟩
    obtain ⟨h1, h2⟩ := flatten_singletons (P := fun c => Regex.inClass ranges c = true) parts hall
    rw [hflat, h1]
    exact ⟨hlo, hhi, h2⟩
  · rintro ⟨hlo, hhi, hall⟩
    refine ⟨s.map fun c => [c], by simpa using hlo, by simpa using hhi,
      (flatten_map_singleton s).symm, ?_⟩
    intro p hp
    obtain ⟨c, hc, rfl⟩ := List.mem_map.mp hp
    exact ⟨c, rfl, hall c hc⟩

theorem lang_lit (p : Char) (s : GoString) : Regex.lang (Regex.lit p) s ↔ s = [p] := by
  simp only [Regex.lit, Regex.lang, inClass_single]
  constructor
  · rintro ⟨c, h1, h2⟩; rw [h1, h2]
  · intro h; exact ⟨p, h, rfl⟩

theorem not_isLetter_hyphen : ¬ isLetter '-' := by
  simp only [isLetter]; decide

theorem not_isDigit_hyphen : ¬ isDigit '-' := by
  simp only [isDigit]; decide

theorem alnum_of_labelChar_ne {c : Char} (h : isLabelChar c) (hne : c ≠ '-') :
    isLetter c ∨ isDigit c := by
  rcases h with h | h | h
  · exact Or.inl h
  · exact Or.inr h
  · exact absurd h hne

theorem labelChar_of_alnum {c : Char} (h : isLetter c ∨ isDigit c) : isLabelChar c := by
  rcases h with h | h
  · exact Or.inl h
  · exact Or.inr (Or.inl h)

theorem ne_hyphen_of_alnum {c : Char} (h : isLetter c ∨ isDigit c) : c ≠ '-' := by
  rintro rfl
  rcases h with h | h
  · exact not_isLetter_hyphen h
  · exact not_isDigit_hyphen h

/-- The strings matched by the label sub-expression are the valid labels. -/
theorem lang_labelRegex (l : GoString) : Regex.lang labelRegex l ↔ ValidLabel l := by
  simp only [labelRegex, Regex.lang.eq_4, lang_quest, lang_rep_cls, Regex.lang.eq_3,
    inClass_alnum, inClass_alnumHyphen]
  constructor
  · rintro ⟨u, v, rfl, ⟨c, rfl, hc⟩, hv⟩
    rcases hv with rfl | ⟨mid, w, rfl, ⟨_, hhi, hmid⟩, d, rfl, hd⟩
    · refine ⟨by simp, by simp, ?_, ?_, ?_⟩
      · intro x hx
        simp only [List.append_nil, List.mem_singleton] at hx
        rw [hx]; exact labelChar_of_alnum hc
      · simpa using ne_hyphen_of_alnum hc
      · simpa using ne_hyphen_of_alnum hc
    · have := hhi 61 rfl
      refine ⟨by simp, by simp; omega, ?_, ?_, ?_⟩
      · intro x hx
        simp only [List.singleton_append, List.mem_cons, List.mem_append,
          List.mem_singleton, List.not_mem_nil, or_false] at hx
        rcases hx with rfl | hx | rfl
        · exact labelChar_of_alnum hc
        · exact hmid x hx
        · exact labelChar_of_alnum hd
      · simpa using ne_hyphen_of_alnum hc
      · rw [show [c] ++ (mid ++ [d]) = (c :: mid) ++ [d] by simp, List.getLast?_concat]
        simpa using ne_hyphen_of_alnum hd
  · rintro ⟨h1, h63, hall, hhead, hlast⟩
    cases l with
    | nil => simp at h1
    | cons c t =>
      have hc : isLetter c ∨ isDigit c :=
        alnum_of_labelChar_ne (hall c (List.mem_cons_self _ _)) (by simpa using hhead)
      rcases List.eq_nil_or_concat' t with rfl | ⟨mid, d, rfl⟩
      · exact ⟨[c], [], rfl, ⟨c, rfl, hc⟩, Or.inl rfl⟩
      · have hd : isLetter d ∨ isDigit d := by
          apply alnum_of_labelChar_ne (hall d (by simp))
          rw [show c :: (mid ++ [d]) = (c :: mid) ++ [d] by simp, List.getLast?_concat] at hlast
          simpa using hlast
        refine ⟨[c], mid ++ [d], rfl, ⟨c, rfl, hc⟩, Or.inr ⟨mid, [d], rfl, ⟨by simp, ?_, ?_⟩,
          d, rfl, hd⟩⟩
        · intro h hh
          simp only [Option.some.injEq] at hh
          simp only [List.length_cons, List.length_append, List.length_nil] at h63
          omega
        · intro x hx
          exact hall x (by simp [hx])

theorem exists_labels_of_parts :
    ∀ parts : List GoString, (∀ p ∈ parts, ∃ l, p = '.' :: l ∧ ValidLabel l) →
      ∃ labels : List GoString, parts = labels.map (fun l => '.' :: l) ∧
        ∀ l ∈ labels, ValidLabel l := by
  intro parts
  induction parts with
  | nil => intro _; exact ⟨[], rfl, by simp⟩
  | cons p ps ih =>
    intro h
    obtain ⟨l, hl, hv⟩ := h p (List.mem_cons_self _ _)
    obtain ⟨labels, hps, hall⟩ := ih (fun q hq => h q (List.mem_cons_of_mem _ hq))
    refine ⟨l :: labels, by simp [hl, hps], ?_⟩
    intro x hx
    rcases List.mem_cons.mp hx with rfl | hx
    · exact hv
    · exact hall x hx

/-- The strings matched by `(?:\.label)*`. -/
theorem lang_star_dot_label (s : GoString) :
    Regex.lang (Regex.star (Regex.cat (Regex.lit '.') labelRegex)) s ↔
      ∃ labels : List GoString, s = (labels.map (fun l => '.' :: l)).flatten ∧
        ∀ l ∈ labels, ValidLabel l := by
  simp only [Regex.star, Regex.lang.eq_6, Regex.lang.eq_4, lang_lit, lang_labelRegex]
  constructor
  · rintro ⟨parts, _, _, hflat, hall⟩
    obtain ⟨labels, hparts, hlabels⟩ := exists_labels_of_parts parts (by
      intro p hp
      obtain ⟨u, v, rfl, rfl, hv⟩ := hall p hp
      exact ⟨v, rfl, hv⟩)
    exact ⟨labels, by rw [hflat, hparts], hlabels⟩
  · rintro ⟨labels, hs, hall⟩
    refine ⟨labels.map (fun l => '.' :: l), by simp, by simp, hs, ?_⟩
    intro p hp
    obtain ⟨l, hl, rfl⟩ := List.mem_map.mp hp
    exact ⟨['.'], l, rfl, rfl, hall l hl⟩

theorem intercalate_dot_cons (l0 : GoString) (ls : List GoString) :
    List.intercalate ['.'] (l0 :: ls) = l0 ++ (ls.map (fun l => '.' :: l)).flatten := by
  induction ls generalizing l0 with
  | nil => simp [List.intercalate, List.intersperse]
  | cons l1 ls ih =>
    have := ih l1
    simp only [List.intercalate, List.intersperse, List.flatten_cons, List.map_cons] at this ⊢
    rw [this]
    simp

/-- The strings matched by the pattern of `ValidateFormat` are the well-formed
addresses. -/
theorem lang_emailRegex (s : GoString) : Regex.lang emailRegex s ↔ WellFormedAddress s := by
  simp only [emailRegex, Regex.lang.eq_4, Regex.plus, lang_rep_cls, lang_lit, lang_labelRegex,
    lang_star_dot_label, inClass_local, WellFormedAddress, ValidDomain]
  constructor
  · rintro ⟨loc, v, rfl, ⟨hlen, _, hloc⟩, u2, v2, rfl, rfl, l0, v3, rfl, hl0, labels, rfl, hall⟩
    refine ⟨loc, l0 ++ (labels.map (fun l => '.' :: l)).flatten, by simp, ?_, hloc,
      l0 :: labels, by simp, (intercalate_dot_cons l0 labels).symm, ?_⟩
    · rintro rfl; simp at hlen
    · intro l hl
      rcases List.mem_cons.mp hl with rfl | hl
      · exact hl0
      · exact hall l hl
  · rintro ⟨loc, dom, rfl, hne, hloc, labels, hlne, rfl, hall⟩
    cases labels with
    | nil => exact absurd rfl hlne
    | cons l0 ls =>
      refine ⟨loc, '@' :: List.intercalate ['.'] (l0 :: ls), rfl, ⟨?_, by simp, hloc⟩,
        ['@'], List.intercalate ['.'] (l0 :: ls), rfl, rfl,
        l0, (ls.map (fun l => '.' :: l)).flatten, intercalate_dot_cons l0 ls,
        hall l0 (List.mem_cons_self _ _), ls, rfl,
        fun l hl => hall l (List.mem_cons_of_mem _ hl)⟩
      cases loc with
      | nil => exact absurd rfl hne
      | cons _ _ => simp

/-- The function `ValidateFormat` returns `nil` exactly on the well-formed
addresses. -/
theorem ValidateFormat_eq_none_iff (s : GoString) :
    ValidateFormat s = none ↔ WellFormedAddress s := by
  rw [← lang_emailRegex, ← Regex.fullMatch_iff]
  simp only [ValidateFormat, MatchString]
  by_cases h : Regex.fullMatch emailRegex s = true <;> simp [h]

theorem ValidateFormat_eq_some_iff (s : GoString) :
    ValidateFormat s = some "Invalid Format".toList ↔ ¬ WellFormedAddress s := by
  rw [← ValidateFormat_eq_none_iff]
  simp only [ValidateFormat]
  by_cases h : MatchString s = true <;> simp [h]

/-! ## Claims about `ValidateFormat` -/

/-- C4: `ValidateFormat` returns `nil` if and only if the string has the form
local `@` domain, with a non-empty local part of letters, digits and the listed
punctuation, and a domain of one or more dot-separated labels of 1 to 63
letters, digits or hyphens that neither start nor end with a hyphen; on every
other string it returns the error "Invalid Format". -/
theorem ValidateFormat_spec (s : GoString) :
    (ValidateFormat s = none ↔ WellFormedAddress s) ∧
      (¬ WellFormedAddress s → ValidateFormat s = some "Invalid Format".toList) :=
  ⟨ValidateFormat_eq_none_iff s, (ValidateFormat_eq_some_iff s).mpr⟩

theorem ValidateFormat_spec_witness :
    ValidateFormat "user@sub.example.com".toList = none ∧
      WellFormedAddress "user@sub.example.com".toList :=
  ⟨by decide, (ValidateFormat_spec "user@sub.example.com".toList).1.mp (by decide)⟩

/-! ## Lemmas on the pipeline -/

/-- The events the retry loop adds are a number of rounds, at most `11 - count`. -/
theorem retryLoop_events (t : Transport) (call : SendCall) (d : Nat) :
    ∀ (count : Nat) (err : Option GoError) (tr : Trace), count + d = 11 →
      ∃ j, j ≤ d ∧ (retryLoop t call err count tr).2 =
        tr ++ retryEvents t call (smtpAttempts tr).length j := by
  induction d with
  | zero =>
    intro count err tr hc
    exact ⟨0, le_refl _, by rw [retryLoop_stop t call _ count tr (by omega)]; simp [retryEvents]⟩
  | succ d ih =>
    intro count err tr hc
    cases err with
    | none => exact ⟨0, Nat.zero_le _, by rw [retryLoop_nil]; simp [retryEvents]⟩
    | some e =>
      rw [retryLoop_step t call e count tr (by omega)]
      obtain ⟨j, hj, h⟩ := ih (count + 1) (t (smtpAttempts tr).length)
        (tr ++ [Event.sleep 2, Event.sendMail call (t (smtpAttempts tr).length)]) (by omega)
      refine ⟨j + 1, by omega, ?_⟩
      rw [h]
      have hlen : (smtpAttempts (tr ++ [Event.sleep 2,
          Event.sendMail call (t (smtpAttempts tr).length)])).length =
            (smtpAttempts tr).length + 1 := by
        simp [smtpAttempts_append, smtpAttempts]
      rw [hlen]
      simp [retryEvents]

theorem reported_report_failed (e a : GoString) :
    reported [Event.println [e], Event.println ["Failed sending to ".toList, a]] = [a] := by
  simp [reported]

theorem reported_report_sent (a : GoString) :
    reported [Event.println ["Email Sent to ".toList, a]] = [a] := by
  simp [reported]

/-- The shape of the trace of any call of `Send`: a first attempt, at most
eleven rounds of the retry loop, and a report naming the recipient. -/
theorem Send_events (m : Message) (username password hostname port : GoString)
    (t : Transport) (tr : Trace) :
    ∃ (j : Nat) (report : Trace), j ≤ 11 ∧
      m.Send username password hostname port t tr =
        tr ++ (Event.sendMail (m.call username password hostname port)
            (t (smtpAttempts tr).length) ::
          retryEvents t (m.call username password hostname port)
            ((smtpAttempts tr).length + 1) j ++ report) ∧
      smtpAttempts report = [] ∧ reported report = [m.to_] := by
  obtain ⟨j, hj, h⟩ := retryLoop_events t (m.call username password hostname port) 11 0
    (t (smtpAttempts tr).length)
    (tr ++ [Event.sendMail (m.call username password hostname port)
      (t (smtpAttempts tr).length)]) (by omega)
  have hlen : (smtpAttempts (tr ++ [Event.sendMail (m.call username password hostname port)
      (t (smtpAttempts tr).length)])).length = (smtpAttempts tr).length + 1 := by
    simp [smtpAttempts_append, smtpAttempts]
  rw [hlen] at h
  cases hr : (retryLoop t (m.call username password hostname port) (t (smtpAttempts tr).length) 0
      (tr ++ [Event.sendMail (m.call username password hostname port)
        (t (smtpAttempts tr).length)])).1 with
  | none =>
    refine ⟨j, [Event.println ["Email Sent to ".toList, m.to_]], hj, ?_, rfl,
      reported_report_sent _⟩
    simp only [Message.Send, sendMail, hr, h]
    simp
  | some e =>
    refine ⟨j, [Event.println [e], Event.println ["Failed sending to ".toList, m.to_]], hj, ?_,
      rfl, reported_report_failed _ _⟩
    simp only [Message.Send, sendMail, hr, h]
    simp

/-- The SMTP attempts and the report of any call of `Send`. -/
theorem Send_summary (m : Message) (username password hostname port : GoString)
    (t : Transport) (tr : Trace) :
    ∃ (k : Nat) (evs : Trace), 1 ≤ k ∧ k ≤ 12 ∧
      m.Send username password hostname port t tr = tr ++ evs ∧
      (smtpAttempts evs).map (fun a => a.1) =
        List.replicate k (m.call username password hostname port) ∧
      reported evs = [m.to_] := by
  obtain ⟨j, report, hj, h, hsmtp, hrep⟩ := Send_events m username password hostname port t tr
  refine ⟨j + 1, _, by omega, by omega, h, ?_, ?_⟩
  · rw [smtpAttempts_attempt_rounds t _ _ j report hsmtp, List.map_map]
    simp [Function.comp_def, List.eq_replicate_iff]
  · rw [show ∀ (a : Event) (l : Trace), a :: l = [a] ++ l from fun _ _ => rfl,
      reported_append, reported_append, reported_retryEvents, hrep]
    rfl

theorem rowMessage_cons (tmpl : Template) (subject name addr : GoString)
    (rest : List GoString) :
    rowMessage tmpl subject (name :: addr :: rest) =
      Message.mk addr "mail@example.com".toList subject (tmpl name) := rfl

theorem reported_skip (a : GoString) :
    reported [Event.println
      ["Email address (".toList, a, ") is not valid - Skipping...".toList]] = [] := by
  simp [reported]

/-- With a template that loads and rows of at least two fields, the second loop
of `ReadRecipient` runs to completion and calls `Send` once for every row whose
address is accepted, in order, and for no other row. -/
theorem recipientLoop_ok (tmpl : Template) (subject : GoString) (c : Credentials)
    (t : Transport) :
    ∀ (rows : List (List GoString)) (tr : Trace), (∀ r ∈ rows, 2 ≤ r.length) →
      ∃ (evs : Trace) (ks : List Nat),
        recipientLoop (Except.ok tmpl) subject c t (rows.map ReadResult.record) tr =
          (none, tr ++ evs) ∧
        reported evs = (rows.filter fun r => accepted (rowAddress r)).map rowAddress ∧
        ks.length = (rows.filter fun r => accepted (rowAddress r)).length ∧
        (∀ k ∈ ks, 1 ≤ k ∧ k ≤ 12) ∧
        (smtpAttempts evs).map (fun a => a.1) =
          (List.zipWith
            (fun r k => List.replicate k
              ((rowMessage tmpl subject r).call c.username c.password c.hostname c.port))
            (rows.filter fun r => accepted (rowAddress r)) ks).flatten := by
  intro rows
  induction rows with
  | nil =>
    intro tr _
    exact ⟨[], [], by simp [recipientLoop], by simp [reported], by simp, by simp,
      by simp [smtpAttempts]⟩
  | cons r rows ih =>
    intro tr hrows
    have hr := hrows r (List.mem_cons_self _ _)
    have hrest : ∀ q ∈ rows, 2 ≤ q.length := fun q hq => hrows q (List.mem_cons_of_mem _ hq)
    match r, hr with
    | name :: addr :: rest, _ =>
      have haddr : rowAddress (name :: addr :: rest) = addr := rfl
      have hname : rowName (name :: addr :: rest) = name := rfl
      cases hv : ValidateFormat addr with
      | some e =>
        have hacc : accepted (rowAddress (name :: addr :: rest)) = false := by
          simp [accepted, haddr, hv]
        obtain ⟨evs, ks, hrun, hrep, hlen, hks, hatt⟩ := ih (tr ++ [Event.println
          ["Email address (".toList, addr, ") is not valid - Skipping...".toList]]) hrest
        refine ⟨Event.println
          ["Email address (".toList, addr, ") is not valid - Skipping...".toList] :: evs, ks,
          ?_, ?_, ?_, hks, ?_⟩
        · simp only [List.map_cons, recipientLoop, List.getElem?_cons_succ,
            List.getElem?_cons_zero, hv, hrun]
          simp
        · rw [List.filter_cons_of_neg (by simp [hacc]),
            show ∀ (a : Event) (l : Trace), a :: l = [a] ++ l from fun _ _ => rfl,
            reported_append, reported_skip, hrep]
          rfl
        · rw [List.filter_cons_of_neg (by simp [hacc])]; exact hlen
        · rw [List.filter_cons_of_neg (by simp [hacc]),
            show ∀ (a : Event) (l : Trace), a :: l = [a] ++ l from fun _ _ => rfl,
            smtpAttempts_append, List.map_append, hatt]
          rfl
      | none =>
        have hacc : accepted (rowAddress (name :: addr :: rest)) = true := by
          simp [accepted, haddr, hv]
        obtain ⟨k, evs1, hk1, hk12, hsend, hatt1, hrep1⟩ :=
          Send_summary (rowMessage tmpl subject (name :: addr :: rest))
            c.username c.password c.hostname c.port t tr
        obtain ⟨evs, ks, hrun, hrep, hlen, hks, hatt⟩ := ih (tr ++ evs1) hrest
        refine ⟨evs1 ++ evs, k :: ks, ?_, ?_, ?_, ?_, ?_⟩
        · simp only [List.map_cons, recipientLoop, List.getElem?_cons_succ,
            List.getElem?_cons_zero, hv, ParseTemplate]
          rw [rowMessage_cons] at hsend
          rw [hsend, hrun]
          simp
        · rw [List.filter_cons_of_pos (by simp [hacc]), reported_append, hrep1, hrep]
          rfl
        · rw [List.filter_cons_of_pos (by simp [hacc])]; simp [hlen]
        · intro x hx
          rcases List.mem_cons.mp hx with rfl | hx
          · exact ⟨hk1, hk12⟩
          · exact hks x hx
        · rw [List.filter_cons_of_pos (by simp [hacc]), smtpAttempts_append, List.map_append,
            hatt1, hatt]
          simp

theorem filter_accepted_map (rows : List (List GoString)) :
    (rows.map rowAddress).filter accepted =
      (rows.filter fun r => accepted (rowAddress r)).map rowAddress := by
  rw [List.filter_map]
  rfl

theorem map_to_zipWith_calls (tmpl : Template) (subject : GoString) (c : Credentials) :
    ∀ (rows : List (List GoString)) (ks : List Nat),
      ((List.zipWith
          (fun r k => List.replicate k
            ((rowMessage tmpl subject r).call c.username c.password c.hostname c.port))
          rows ks).flatten).map (fun call => call.to_) =
        (List.zipWith (fun a k => List.replicate k [a]) (rows.map rowAddress) ks).flatten := by
  intro rows
  induction rows with
  | nil => intro ks; simp
  | cons r rows ih =>
    intro ks
    cases ks with
    | nil => simp
    | cons k ks =>
      simp only [List.zipWith_cons_cons, List.flatten_cons, List.map_append, List.map_cons, ih]
      simp [rowMessage, Message.call]

/-! ## Invariants of every run -/

/-- Every SMTP attempt of the second loop, on any input, is made by `Send` for a
message whose recipient `ValidateFormat` accepted, with the loaded credentials. -/
theorem recipientLoop_attempts (templateFile : Except GoError Template) (subject : GoString)
    (c : Credentials) (t : Transport) :
    ∀ (records : List ReadResult) (tr : Trace),
      ∃ evs : Trace, (recipientLoop templateFile subject c t records tr).2 = tr ++ evs ∧
        ∀ a ∈ smtpAttempts evs, ∃ m : Message,
          a.1 = m.call c.username c.password c.hostname c.port ∧
            ValidateFormat m.to_ = none ∧ m.from_ = "mail@example.com".toList ∧
            m.subject = subject := by
  intro records
  induction records with
  | nil => intro tr; exact ⟨[], by simp [recipientLoop], by simp [smtpAttempts]⟩
  | cons r records ih =>
    intro tr
    cases r with
    | error err => exact ⟨[], by simp [recipientLoop], by simp [smtpAttempts]⟩
    | record record =>
      cases h1 : record[1]? with
      | none => exact ⟨[], by simp [recipientLoop, h1], by simp [smtpAttempts]⟩
      | some address =>
        cases hv : ValidateFormat address with
        | some e =>
          obtain ⟨evs, hrun, hall⟩ := ih (tr ++ [Event.println
            ["Email address (".toList, address, ") is not valid - Skipping...".toList]])
          refine ⟨Event.println
            ["Email address (".toList, address, ") is not valid - Skipping...".toList] :: evs,
            ?_, ?_⟩
          · simp only [recipientLoop, h1, hv, hrun]
            simp
          · intro a ha
            apply hall
            rw [show ∀ (a : Event) (l : Trace), a :: l = [a] ++ l from fun _ _ => rfl,
              smtpAttempts_append] at ha
            simpa [smtpAttempts] using ha
        | none =>
          cases h0 : record[0]? with
          | none => exact ⟨[], by simp [recipientLoop, h1, hv, h0], by simp [smtpAttempts]⟩
          | some name =>
            cases templateFile with
            | error e =>
              exact ⟨[], by simp [recipientLoop, h1, hv, h0, ParseTemplate],
                by simp [smtpAttempts]⟩
            | ok tmpl =>
              obtain ⟨k, evs1, _, _, hsend, hatt1, _⟩ :=
                Send_summary (Message.mk address "mail@example.com".toList subject (tmpl name))
                  c.username c.password c.hostname c.port t tr
              obtain ⟨evs, hrun, hall⟩ := ih (tr ++ evs1)
              refine ⟨evs1 ++ evs, ?_, ?_⟩
              · simp only [recipientLoop, h1, hv, h0, ParseTemplate]
                rw [hsend, hrun]
                simp
              · intro a ha
                rw [smtpAttempts_append] at ha
                rcases List.mem_append.mp ha with ha | ha
                · refine ⟨Message.mk address "mail@example.com".toList subject (tmpl name),
                    ?_, hv, rfl, rfl⟩
                  have : a.1 ∈ (smtpAttempts evs1).map (fun a => a.1) :=
                    List.mem_map.mpr ⟨a, ha, rfl⟩
                  rw [hatt1] at this
                  exact (List.mem_replicate.mp this).2
                · exact hall a ha

/-- Every SMTP attempt of `ReadRecipient`, on any input, is made for a message
whose recipient `ValidateFormat` accepted, with the credentials read from the
configuration. -/
theorem ReadRecipient_attempts (recipientListFile : CsvFile)
    (templateFile : Except GoError Template) (configFile : CsvFile) (subject : GoString)
    (t : Transport) (tr : Trace) :
    ∃ evs : Trace,
      (ReadRecipient recipientListFile templateFile configFile subject t tr).2 = tr ++ evs ∧
        ∀ a ∈ smtpAttempts evs, ∃ (m : Message) (c : Credentials),
          (∃ serverRecords, configFile = Except.ok serverRecords ∧
            readConfig serverRecords ⟨[], [], [], []⟩ = Except.ok c) ∧
          a.1 = m.call c.username c.password c.hostname c.port ∧
            ValidateFormat m.to_ = none ∧ m.from_ = "mail@example.com".toList ∧
            m.subject = subject := by
  cases configFile with
  | error err => exact ⟨[], by simp [ReadRecipient], by simp [smtpAttempts]⟩
  | ok serverRecords =>
    cases hc : readConfig serverRecords ⟨[], [], [], []⟩ with
    | error a => exact ⟨[], by simp [ReadRecipient, hc], by simp [smtpAttempts]⟩
    | ok c =>
      cases recipientListFile with
      | error err => exact ⟨[], by simp [ReadRecipient, hc], by simp [smtpAttempts]⟩
      | ok records =>
        obtain ⟨evs, hrun, hall⟩ := recipientLoop_attempts templateFile subject c t records tr
        refine ⟨evs, by simp only [ReadRecipient, hc, hrun], ?_⟩
        intro a ha
        obtain ⟨m, hm⟩ := hall a ha
        exact ⟨m, c, ⟨serverRecords, rfl, hc⟩, hm⟩

/-- The first loop keeps the fields of the last row. -/
theorem readConfig_rows :
    ∀ (rows : List (List GoString)) (c0 : Credentials), (∀ r ∈ rows, 4 ≤ r.length) →
      readConfig (rows.map ReadResult.record) c0 =
        Except.ok ((rows.getLast?.map rowCredentials).getD c0) := by
  intro rows
  induction rows with
  | nil => intro c0 _; simp [readConfig]
  | cons r rows ih =>
    intro c0 h
    have hr := h r (List.mem_cons_self _ _)
    match r, hr with
    | u :: p :: hn :: pt :: rest, _ =>
      simp only [List.map_cons, readConfig, List.getElem?_cons_succ, List.getElem?_cons_zero]
      rw [ih _ (fun q hq => h q (List.mem_cons_of_mem _ hq))]
      cases rows with
      | nil => simp [rowCredentials]
      | cons r2 rows2 =>
        rw [List.getLast?_cons_cons, List.getLast?_eq_getLast _ (List.cons_ne_nil r2 rows2)]
        rfl

theorem readConfig_last (rows : List (List GoString)) (hne : rows ≠ [])
    (h : ∀ r ∈ rows, 4 ≤ r.length) (c0 : Credentials) :
    readConfig (rows.map ReadResult.record) c0 = Except.ok (rowCredentials (rows.getLast hne)) := by
  rw [readConfig_rows rows c0 h, List.getLast?_eq_getLast _ hne]
  rfl

/-! ## A template that cannot be loaded -/

/-- With a template that cannot be loaded and rows of at least two fields, the
second loop aborts at the first row whose address is accepted, and completes
when there is none; it makes no SMTP attempt. -/
theorem recipientLoop_template_error (err subject : GoString) (c : Credentials)
    (t : Transport) :
    ∀ (rows : List (List GoString)) (tr : Trace), (∀ r ∈ rows, 2 ≤ r.length) →
      ∃ evs : Trace,
        recipientLoop (Except.error err) subject c t (rows.map ReadResult.record) tr =
          (if rows.any (fun r => accepted (rowAddress r)) then
              some (Abort.fatal ["Couldn't open the template".toList, err])
            else none, tr ++ evs) ∧
        smtpAttempts evs = [] ∧ reported evs = [] := by
  intro rows
  induction rows with
  | nil => intro tr _; exact ⟨[], by simp [recipientLoop], rfl, rfl⟩
  | cons r rows ih =>
    intro tr hrows
    have hr := hrows r (List.mem_cons_self _ _)
    have hrest : ∀ q ∈ rows, 2 ≤ q.length := fun q hq => hrows q (List.mem_cons_of_mem _ hq)
    match r, hr with
    | name :: addr :: rest, _ =>
      have haddr : rowAddress (name :: addr :: rest) = addr := rfl
      cases hv : ValidateFormat addr with
      | some e =>
        have hacc : accepted addr = false := by simp [accepted, hv]
        obtain ⟨evs, hrun, hsmtp, hrep⟩ := ih (tr ++ [Event.println
          ["Email address (".toList, addr, ") is not valid - Skipping...".toList]]) hrest
        refine ⟨Event.println
          ["Email address (".toList, addr, ") is not valid - Skipping...".toList] :: evs,
          ?_, ?_, ?_⟩
        · simp only [List.map_cons, recipientLoop, List.getElem?_cons_succ,
            List.getElem?_cons_zero, hv, hrun, List.any_cons, haddr, hacc, Bool.false_or]
          simp
        · rw [show ∀ (a : Event) (l : Trace), a :: l = [a] ++ l from fun _ _ => rfl,
            smtpAttempts_append, hsmtp]
          rfl
        · rw [show ∀ (a : Event) (l : Trace), a :: l = [a] ++ l from fun _ _ => rfl,
            reported_append, hrep, reported_skip]
          rfl
      | none =>
        have hacc : accepted addr = true := by simp [accepted, hv]
        refine ⟨[], ?_, rfl, rfl⟩
        simp only [List.map_cons, recipientLoop, List.getElem?_cons_succ,
          List.getElem?_cons_zero, hv, ParseTemplate, List.any_cons, haddr, hacc, Bool.true_or]
        simp

/-- C7, refuted as stated: with readable credentials, a readable recipient list
whose only row has a rejected address, and a template that cannot be loaded,
`ReadRecipient` runs to completion. -/
theorem unloadable_template_run_completes :
    ReadRecipient (Except.ok [ReadResult.record ["Bad".toList, "not-an-email".toList]])
        (Except.error "open template.html: no such file or directory".toList)
        scenarioConfig mainSubject succeedingTransport [] =
      (none, [Event.println ["Email address (".toList, "not-an-email".toList,
        ") is not valid - Skipping...".toList]]) := by
  decide

/-- With a template that cannot be loaded, the second loop makes no SMTP
attempt on any input, and it does not run to completion when some record read
has an address that `ValidateFormat` accepts. -/
theorem recipientLoop_unloadable (err subject : GoString) (c : Credentials) (t : Transport) :
    ∀ (records : List ReadResult) (tr : Trace),
      ∃ evs : Trace,
        (recipientLoop (Except.error err) subject c t records tr).2 = tr ++ evs ∧
        smtpAttempts evs = [] ∧
        ((∃ fields, ReadResult.record fields ∈ records ∧ accepted (rowAddress fields) = true) →
          (recipientLoop (Except.error err) subject c t records tr).1 ≠ none) := by
  intro records
  induction records with
  | nil =>
    intro tr
    refine ⟨[], by simp [recipientLoop], rfl, ?_⟩
    rintro ⟨fields, hmem, _⟩
    simp at hmem
  | cons r records ih =>
    intro tr
    cases r with
    | error e => exact ⟨[], by simp [recipientLoop], rfl, fun _ => by simp [recipientLoop]⟩
    | record fields =>
      cases h1 : fields[1]? with
      | none =>
        exact ⟨[], by simp [recipientLoop, h1], rfl, fun _ => by simp [recipientLoop, h1]⟩
      | some address =>
        have haddr : rowAddress fields = address := by
          simp [rowAddress, List.getD_eq_getElem?_getD, h1]
        cases hv : ValidateFormat address with
        | some e =>
          obtain ⟨evs, hrun, hsmtp, hne⟩ := ih (tr ++ [Event.println
            ["Email address (".toList, address, ") is not valid - Skipping...".toList]])
          refine ⟨Event.println
            ["Email address (".toList, address, ") is not valid - Skipping...".toList] :: evs,
            ?_, ?_, ?_⟩
          · simp only [recipientLoop, h1, hv, hrun]
            simp
          · rw [show ∀ (a : Event) (l : Trace), a :: l = [a] ++ l from fun _ _ => rfl,
              smtpAttempts_append, hsmtp]
            rfl
          · rintro ⟨f, hmem, hacc⟩
            simp only [recipientLoop, h1, hv]
            apply hne
            rcases List.mem_cons.mp hmem with h | h
            · cases h
              rw [haddr] at hacc
              simp [accepted, hv] at hacc
            · exact ⟨f, h, hacc⟩
        | none =>
          cases h0 : fields[0]? with
          | none =>
            exact ⟨[], by simp [recipientLoop, h1, hv, h0], rfl,
              fun _ => by simp [recipientLoop, h1, hv, h0]⟩
          | some name =>
            exact ⟨[], by simp [recipientLoop, h1, hv, h0, ParseTemplate], rfl,
              fun _ => by simp [recipientLoop, h1, hv, h0, ParseTemplate]⟩

/-- C7, amended: with a configuration file and a recipient list that open,
whatever their rows, and a template that cannot be loaded, `ReadRecipient`
makes no SMTP attempt, and it ends in an abort instead of running to completion
whenever some record read from the recipient list has an address that
`ValidateFormat` accepts.  When moreover the credentials load and every read of
the recipient list returns a record of at least two fields, the run ends in the
fatal abort of `ParseTemplate` if some address is accepted and runs to
completion if none is. -/
theorem ReadRecipient_template_error (records serverRecords : List ReadResult)
    (err subject : GoString) (t : Transport) (tr : Trace) :
    ∃ evs : Trace,
      (ReadRecipient (Except.ok records) (Except.error err) (Except.ok serverRecords)
        subject t tr).2 = tr ++ evs ∧
      smtpAttempts evs = [] ∧
      ((∃ fields, ReadResult.record fields ∈ records ∧ accepted (rowAddress fields) = true) →
        (ReadRecipient (Except.ok records) (Except.error err) (Except.ok serverRecords)
          subject t tr).1 ≠ none) ∧
      (∀ (c : Credentials) (rows : List (List GoString)),
        readConfig serverRecords ⟨[], [], [], []⟩ = Except.ok c →
        records = rows.map ReadResult.record → (∀ r ∈ rows, 2 ≤ r.length) →
        (ReadRecipient (Except.ok records) (Except.error err) (Except.ok serverRecords)
          subject t tr).1 =
          if rows.any (fun r => accepted (rowAddress r)) then
            some (Abort.fatal ["Couldn't open the template".toList, err])
          else none) := by
  cases hc : readConfig serverRecords ⟨[], [], [], []⟩ with
  | error a =>
    refine ⟨[], by simp [ReadRecipient, hc], rfl, fun _ => by simp [ReadRecipient, hc], ?_⟩
    intro c rows hc2
    cases hc2
  | ok c =>
    obtain ⟨evs, hrun, hsmtp, hne⟩ := recipientLoop_unloadable err subject c t records tr
    refine ⟨evs, by simp only [ReadRecipient, hc, hrun], hsmtp, ?_, ?_⟩
    · intro h
      simp only [ReadRecipient, hc]
      exact hne h
    · intro c2 rows hc2 hrec hrows
      cases hc2
      subst hrec
      obtain ⟨evs2, hrun2, _, _⟩ :=
        recipientLoop_template_error err subject c t rows tr hrows
      simp only [ReadRecipient, hc, hrun2]

theorem ReadRecipient_template_error_witness :
    (∃ fields, ReadResult.record fields ∈ scenarioRows.map ReadResult.record ∧
      accepted (rowAddress fields) = true) ∧
    (∀ r ∈ scenarioRows, 2 ≤ r.length) ∧
    (ReadRecipient (Except.ok (scenarioRows.map ReadResult.record))
        (Except.error "no such file".toList) scenarioConfig mainSubject succeedingTransport
        []).1 =
      some (Abort.fatal ["Couldn't open the template".toList, "no such file".toList]) ∧
    (ReadRecipient (Except.ok (scenarioRows.map ReadResult.record))
        (Except.error "no such file".toList) scenarioConfig mainSubject succeedingTransport
        []).1 ≠ none := by
  have hex : ∃ fields, ReadResult.record fields ∈ scenarioRows.map ReadResult.record ∧
      accepted (rowAddress fields) = true :=
    ⟨["Ann".toList, "ann@example.com".toList], by decide, by decide⟩
  obtain ⟨_, _, _, h2, h3⟩ := ReadRecipient_template_error
    (scenarioRows.map ReadResult.record)
    [ReadResult.record ["u".toList, "p".toList, "smtp.example.com".toList, "587".toList]]
    "no such file".toList mainSubject succeedingTransport []
  exact ⟨hex, by decide, h3 scenarioCredentials scenarioRows rfl rfl (by decide), h2 hex⟩

/-! ## Characters of an accepted address -/

theorem isLocalChar_of_isLabelChar {c : Char} (h : isLabelChar c) : isLocalChar c := by
  rcases h with h | h | h
  · exact Or.inl h
  · exact Or.inr (Or.inl h)
  · right; right; rw [h]; decide

theorem isLocalChar_dot : isLocalChar '.' := by
  right; right; decide

theorem not_isLocalChar_at : ¬ isLocalChar '@' := by
  simp only [isLocalChar, isLetter, isDigit, localPunctuation]; decide

theorem not_isLocalChar_cr : ¬ isLocalChar '\r' := by
  simp only [isLocalChar, isLetter, isDigit, localPunctuation]; decide

theorem not_isLocalChar_lf : ¬ isLocalChar '\n' := by
  simp only [isLocalChar, isLetter, isDigit, localPunctuation]; decide

theorem not_isLocalChar_space : ¬ isLocalChar ' ' := by
  simp only [isLocalChar, isLetter, isDigit, localPunctuation]; decide

theorem mem_intercalate_dot (labels : List GoString) (hall : ∀ l ∈ labels, ValidLabel l)
    (c : Char) (hc : c ∈ List.intercalate ['.'] labels) : isLocalChar c := by
  cases labels with
  | nil => simp [List.intercalate, List.intersperse] at hc
  | cons l0 ls =>
    rw [intercalate_dot_cons, List.mem_append, List.mem_flatten] at hc
    rcases hc with hc | ⟨p, hp, hcp⟩
    · exact isLocalChar_of_isLabelChar ((hall l0 (List.mem_cons_self _ _)).2.2.1 c hc)
    · obtain ⟨l, hl, rfl⟩ := List.mem_map.mp hp
      rcases List.mem_cons.mp hcp with rfl | hcl
      · exact isLocalChar_dot
      · exact isLocalChar_of_isLabelChar
          ((hall l (List.mem_cons_of_mem _ hl)).2.2.1 c hcl)

/-- An accepted address has exactly one `@`, and apart from it only characters
of the local class; in particular no carriage return, line feed or space. -/
theorem accepted_chars (s : GoString) (h : ValidateFormat s = none) :
    s.count '@' = 1 ∧ (∀ c ∈ s, c = '@' ∨ isLocalChar c) ∧
      '\r' ∉ s ∧ '\n' ∉ s ∧ ' ' ∉ s := by
  obtain ⟨loc, dom, rfl, _, hloc, labels, _, rfl, hall⟩ := (ValidateFormat_eq_none_iff s).mp h
  have hdom : ∀ c ∈ List.intercalate ['.'] labels, isLocalChar c :=
    fun c hc => mem_intercalate_dot labels hall c hc
  have hchars : ∀ c ∈ loc ++ '@' :: List.intercalate ['.'] labels, c = '@' ∨ isLocalChar c := by
    intro c hc
    rcases List.mem_append.mp hc with h1 | h1
    · exact Or.inr (hloc c h1)
    · rcases List.mem_cons.mp h1 with h2 | h2
      · exact Or.inl h2
      · exact Or.inr (hdom c h2)
  refine ⟨?_, hchars, ?_, ?_, ?_⟩
  · rw [List.count_append, List.count_cons_self,
      List.count_eq_zero_of_not_mem (fun hm => not_isLocalChar_at (hloc _ hm)),
      List.count_eq_zero_of_not_mem (fun hm => not_isLocalChar_at (hdom _ hm))]
  · intro hm
    rcases hchars _ hm with h1 | h1
    · revert h1; decide
    · exact not_isLocalChar_cr h1
  · intro hm
    rcases hchars _ hm with h1 | h1
    · revert h1; decide
    · exact not_isLocalChar_lf h1
  · intro hm
    rcases hchars _ hm with h1 | h1
    · revert h1; decide
    · exact not_isLocalChar_space h1

/-- C10: a string that `ValidateFormat` accepts contains exactly one `@` and
otherwise only letters, digits and the listed punctuation, hence no carriage
return, line feed or space; and in every run of `ReadRecipient`, whatever the
inputs, every message handed to `smtp.SendMail` starts with the `From:` line
followed by the line `To: ` + address + CRLF, where the address is the single
recipient of the call, is accepted by `ValidateFormat` and contains neither a
carriage return nor a line feed. -/
theorem accepted_address_cannot_inject_header :
    (∀ s : GoString, ValidateFormat s = none →
      s.count '@' = 1 ∧ (∀ c ∈ s, c = '@' ∨ isLocalChar c) ∧
        '\r' ∉ s ∧ '\n' ∉ s ∧ ' ' ∉ s) ∧
    (∀ (recipientListFile : CsvFile) (templateFile : Except GoError Template)
        (configFile : CsvFile) (subject : GoString) (t : Transport) (tr : Trace),
      ∃ evs : Trace,
        (ReadRecipient recipientListFile templateFile configFile subject t tr).2 = tr ++ evs ∧
        ∀ a ∈ smtpAttempts evs, ∃ (address rest : GoString),
          a.1.to_ = [address] ∧
          a.1.msg = "From: mail@example.com\r\nTo: ".toList ++ address ++ "\r\n".toList ++ rest ∧
          ValidateFormat address = none ∧ '\r' ∉ address ∧ '\n' ∉ address) := by
  refine ⟨accepted_chars, ?_⟩
  intro recipientListFile templateFile configFile subject t tr
  obtain ⟨evs, hrun, hall⟩ :=
    ReadRecipient_attempts recipientListFile templateFile configFile subject t tr
  refine ⟨evs, hrun, ?_⟩
  intro a ha
  obtain ⟨m, c, _, hcall, hv, hfrom, _⟩ := hall a ha
  have hch := accepted_chars m.to_ hv
  refine ⟨m.to_, "Subject: ".toList ++ m.subject ++ "\r\n".toList ++
    "MIME-version: 1.0;\nContent-Type: text/html; charset=\"UTF-8\";\n\n".toList ++
    "\r\n".toList ++ m.body ++ "\r\n".toList, ?_, ?_, hv, hch.2.2.1, hch.2.2.2.1⟩
  · rw [hcall]; rfl
  · rw [hcall]
    simp only [Message.call, Message.msg, hfrom]
    simp

theorem accepted_address_cannot_inject_header_witness :
    ValidateFormat "ann@example.com".toList = none ∧
      "ann@example.com".toList.count '@' = 1 ∧ '\n' ∉ "ann@example.com".toList :=
  ⟨by decide,
    (accepted_address_cannot_inject_header.1 "ann@example.com".toList (by decide)).1,
    (accepted_address_cannot_inject_header.1 "ann@example.com".toList (by decide)).2.2.2.1⟩

/-! ## Claims about the message text -/

theorem msg_split_at_bare_lf (m : Message) :
    m.msg =
      ("From: ".toList ++ m.from_ ++ "\r\n".toList ++ "To: ".toList ++ m.to_ ++ "\r\n".toList ++
        "Subject: ".toList ++ m.subject ++ "\r\n".toList ++ "MIME-version: 1.0".toList) ++
      ';' :: '\n' ::
        ("Content-Type: text/html; charset=\"UTF-8\";\n\n".toList ++ "\r\n".toList ++
          m.body ++ "\r\n".toList) := by
  simp [Message.msg]

theorem crlfOnly_append_bare (post : GoString) :
    ∀ (pre : GoString) (prev : Option Char),
      crlfOnly prev (pre ++ ';' :: '\n' :: post) = false := by
  intro pre
  induction pre with
  | nil => intro prev; simp [crlfOnly]
  | cons c pre ih => intro prev; simp [crlfOnly, ih]

/-- C2 (as the code behaves): in the text built by `Send`, the Content-Type
declaration is followed by its own line feed, then by a second line feed and by
a carriage return and line feed, and only then by the body: two empty lines
stand between the header block and the body.  For the message of the scenario
the lines are listed. -/
theorem msg_two_empty_lines_before_body :
    (∀ m : Message, ∃ headers : GoString,
      m.msg = headers ++ "Content-Type: text/html; charset=\"UTF-8\";".toList ++
        "\n".toList ++ "\n".toList ++ "\r\n".toList ++ m.body ++ "\r\n".toList) ∧
    splitLines scenarioMessage.msg =
      ["From: mail@example.com", "To: ann@example.com", "Subject: Test Mail",
        "MIME-version: 1.0;", "Content-Type: text/html; charset=\"UTF-8\";", "", "",
        "Hello Ann", ""].map String.toList := by
  refine ⟨fun m => ⟨"From: ".toList ++ m.from_ ++ "\r\n".toList ++ "To: ".toList ++ m.to_ ++
    "\r\n".toList ++ "Subject: ".toList ++ m.subject ++ "\r\n".toList ++
    "MIME-version: 1.0;\n".toList, by simp [Message.msg]⟩, by decide⟩

/-- C3 (as the code behaves): whatever the fields of the message, the text
built by `Send` contains a line feed that is preceded by a semicolon and not by
a carriage return (the end of the MIME-version line), so not every line ending
is CRLF. -/
theorem msg_has_bare_line_feed (m : Message) :
    crlfOnly none m.msg = false ∧
      ∃ pre post : GoString, m.msg = pre ++ ';' :: '\n' :: post :=
  ⟨by rw [msg_split_at_bare_lf]; exact crlfOnly_append_bare _ _ _,
    _, _, msg_split_at_bare_lf m⟩

/-! ## The end-to-end scenario -/

/-- C9, refuted as stated: the template text of the scenario, whose action is
the bare identifier `Name`, is rejected by `template.ParseFiles` ("function
"Name" not defined"), and with it `ReadRecipient` ends in the fatal abort of
`ParseTemplate` at the row of Ann, with no body rendered and no SMTP attempt. -/
theorem scenario_bare_identifier_aborts :
    loadTemplate scenarioTemplateText =
      some (Except.error "function \"Name\" not defined".toList) ∧
    ReadRecipient (Except.ok (scenarioRows.map ReadResult.record))
        (Except.error "function \"Name\" not defined".toList) scenarioConfig mainSubject
        succeedingTransport [] =
      (some (Abort.fatal
        ["Couldn't open the template".toList, "function \"Name\" not defined".toList]), []) :=
  ⟨rfl, by decide⟩

theorem scenario_first_row :
    recipientLoop (Except.ok parsedFieldTemplate) mainSubject scenarioCredentials
        succeedingTransport (scenarioRows.map ReadResult.record) [] =
      recipientLoop (Except.ok parsedFieldTemplate) mainSubject scenarioCredentials
        succeedingTransport [ReadResult.record ["Bad".toList, "not-an-email".toList]]
        (scenarioMessage.Send "u".toList "p".toList "smtp.example.com".toList "587".toList
          succeedingTransport []) := by
  have hv : ValidateFormat "ann@example.com".toList = none := by decide
  simp only [scenarioRows, List.map_cons, List.map_nil, recipientLoop,
    List.getElem?_cons_succ, List.getElem?_cons_zero, hv, ParseTemplate]
  rfl

theorem scenario_second_row (tr : Trace) :
    recipientLoop (Except.ok parsedFieldTemplate) mainSubject scenarioCredentials
        succeedingTransport [ReadResult.record ["Bad".toList, "not-an-email".toList]] tr =
      (none, tr ++ [Event.println ["Email address (".toList, "not-an-email".toList,
        ") is not valid - Skipping...".toList]]) := by
  have hv : ValidateFormat "not-an-email".toList = some "Invalid Format".toList := by decide
  simp only [recipientLoop, List.getElem?_cons_succ, List.getElem?_cons_zero, hv]

/-- C9, amended: with the template text `Hello ` followed by the field action
`.Name` between double braces, the template loads and renders "Hello Ann" for
Ann, and the run of the scenario completes with exactly one SMTP attempt, which
succeeds, is addressed to ann@example.com and carries the message with body
"Hello Ann"; the row of "not-an-email" only produces the skip line. -/
theorem scenario_with_field_action :
    loadTemplate fieldTemplateText = some (Except.ok parsedFieldTemplate) ∧
    parsedFieldTemplate "Ann".toList = "Hello Ann".toList ∧
    ReadRecipient (Except.ok (scenarioRows.map ReadResult.record))
        (Except.ok parsedFieldTemplate) scenarioConfig mainSubject succeedingTransport [] =
      (none,
        [Event.sendMail
            (scenarioMessage.call "u".toList "p".toList "smtp.example.com".toList "587".toList)
            none,
          Event.println ["Email Sent to ".toList, "ann@example.com".toList],
          Event.println ["Email address (".toList, "not-an-email".toList,
            ") is not valid - Skipping...".toList]]) ∧
    (scenarioMessage.call "u".toList "p".toList "smtp.example.com".toList "587".toList).to_ =
      ["ann@example.com".toList] ∧
    scenarioMessage.body = "Hello Ann".toList := by
  refine ⟨rfl, by decide, ?_, rfl, rfl⟩
  have hsend := Send_eq_of_success scenarioMessage "u".toList "p".toList
    "smtp.example.com".toList "587".toList succeedingTransport [] 0 (by decide)
    (fun i hi => absurd hi (Nat.not_lt_zero i)) rfl
  have hrun : ReadRecipient (Except.ok (scenarioRows.map ReadResult.record))
      (Except.ok parsedFieldTemplate) scenarioConfig mainSubject succeedingTransport [] =
      recipientLoop (Except.ok parsedFieldTemplate) mainSubject scenarioCredentials
        succeedingTransport (scenarioRows.map ReadResult.record) [] := rfl
  rw [hrun, scenario_first_row, scenario_second_row, hsend]
  rfl

/-! ## Rows of equal and of unequal length -/

theorem csvRead_of_equal_length (rows : List (List GoString)) (n : Nat)
    (h : ∀ r ∈ rows, r.length = n) : csvRead rows = rows.map ReadResult.record := by
  cases rows with
  | nil => rfl
  | cons first rest =>
    simp only [csvRead, List.map_cons, List.cons.injEq, true_and]
    apply List.map_congr_left
    intro r hr
    have h1 := h r (List.mem_cons_of_mem _ hr)
    have h2 := h first (List.mem_cons_self _ _)
    simp [h1, h2]

theorem recipientLoop_cons_accepted (tmpl : Template) (subject : GoString) (c : Credentials)
    (t : Transport) (name addr : GoString) (rest : List GoString) (records : List ReadResult)
    (tr : Trace) (hv : ValidateFormat addr = none) :
    recipientLoop (Except.ok tmpl) subject c t
        (ReadResult.record (name :: addr :: rest) :: records) tr =
      recipientLoop (Except.ok tmpl) subject c t records
        ((Message.mk addr "mail@example.com".toList subject (tmpl name)).Send
          c.username c.password c.hostname c.port t tr) := by
  simp only [recipientLoop, List.getElem?_cons_succ, List.getElem?_cons_zero, hv, ParseTemplate]

theorem scenario_send :
    scenarioMessage.Send "u".toList "p".toList "smtp.example.com".toList "587".toList
        succeedingTransport [] =
      [Event.sendMail
          (scenarioMessage.call "u".toList "p".toList "smtp.example.com".toList "587".toList)
          none,
        Event.println ["Email Sent to ".toList, "ann@example.com".toList]] :=
  Send_eq_of_success scenarioMessage "u".toList "p".toList "smtp.example.com".toList
    "587".toList succeedingTransport [] 0 (by decide)
    (fun i hi => absurd hi (Nat.not_lt_zero i)) rfl

/-- C5, refuted as stated: the recipient rows of Ann, Carl and Dan have two,
three and two fields and all three addresses are accepted by `ValidateFormat`,
but the reader returns the field-count error for the row of Carl, the run ends
there in a fatal abort, and `Send` has only been called for Ann. -/
theorem uneven_recipient_rows_abort :
    (∀ r ∈ unevenRecipientRows, 2 ≤ r.length) ∧
    (unevenRecipientRows.map rowAddress).filter accepted =
      ["ann@example.com".toList, "carl@example.com".toList, "dan@example.com".toList] ∧
    ReadRecipient (Except.ok (csvRead unevenRecipientRows)) (Except.ok parsedFieldTemplate)
        scenarioConfig mainSubject succeedingTransport [] =
      (some (Abort.fatal ["wrong number of fields".toList]),
        [Event.sendMail
            (scenarioMessage.call "u".toList "p".toList "smtp.example.com".toList "587".toList)
            none,
          Event.println ["Email Sent to ".toList, "ann@example.com".toList]]) := by
  refine ⟨by decide, by decide, ?_⟩
  have hrun : ReadRecipient (Except.ok (csvRead unevenRecipientRows))
      (Except.ok parsedFieldTemplate) scenarioConfig mainSubject succeedingTransport [] =
      recipientLoop (Except.ok parsedFieldTemplate) mainSubject scenarioCredentials
        succeedingTransport
        (ReadResult.record ["Ann".toList, "ann@example.com".toList] ::
          [ReadResult.error "wrong number of fields".toList,
            ReadResult.record ["Dan".toList, "dan@example.com".toList]]) [] := rfl
  have hmsg : Message.mk "ann@example.com".toList "mail@example.com".toList mainSubject
      (parsedFieldTemplate "Ann".toList) = scenarioMessage := by decide
  rw [hrun, recipientLoop_cons_accepted _ _ _ _ _ _ _ _ _ (by decide), hmsg]
  simp only [scenarioCredentials, scenario_send, recipientLoop]

/-- C5, amended: when the credentials have been loaded, the recipient rows all
have the same number of fields, at least two, and the template loads,
`ReadRecipient` runs to completion whatever the transport does; `Send` is
completed (one report line each) for exactly the addresses that
`ValidateFormat` accepts, in source order; and the SMTP attempts of the run
are, in order, between 1 and 12 attempts for each accepted address and none for
any other address. -/
theorem ReadRecipient_sends_exactly_accepted (rows : List (List GoString)) (n : Nat)
    (hn : 2 ≤ n) (hlen : ∀ r ∈ rows, r.length = n) (tmpl : Template)
    (serverRecords : List ReadResult) (c : Credentials)
    (hcfg : readConfig serverRecords ⟨[], [], [], []⟩ = Except.ok c)
    (subject : GoString) (t : Transport) (tr : Trace) :
    ∃ (evs : Trace) (ks : List Nat),
      ReadRecipient (Except.ok (csvRead rows)) (Except.ok tmpl)
        (Except.ok serverRecords) subject t tr = (none, tr ++ evs) ∧
      reported evs = (rows.map rowAddress).filter accepted ∧
      ks.length = ((rows.map rowAddress).filter accepted).length ∧
      (∀ k ∈ ks, 1 ≤ k ∧ k ≤ 12) ∧
      (smtpAttempts evs).map (fun a => a.1.to_) =
        (List.zipWith (fun a k => List.replicate k [a])
          ((rows.map rowAddress).filter accepted) ks).flatten := by
  obtain ⟨evs, ks, hrun, hrep, hklen, hks, hatt⟩ :=
    recipientLoop_ok tmpl subject c t rows tr (fun r hr => by rw [hlen r hr]; exact hn)
  refine ⟨evs, ks, ?_, ?_, ?_, hks, ?_⟩
  · simp only [ReadRecipient, hcfg, csvRead_of_equal_length rows n hlen, hrun]
  · rw [hrep, filter_accepted_map]
  · rw [hklen, filter_accepted_map, List.length_map]
  · rw [filter_accepted_map, ← map_to_zipWith_calls tmpl subject c, ← hatt, List.map_map]
    rfl

theorem ReadRecipient_sends_exactly_accepted_witness :
    (2 ≤ 2 ∧ ∀ r ∈ scenarioRows, r.length = 2) ∧
    readConfig [ReadResult.record
        ["u".toList, "p".toList, "smtp.example.com".toList, "587".toList]] ⟨[], [], [], []⟩ =
      Except.ok scenarioCredentials ∧
    ∃ (evs : Trace) (ks : List Nat),
      ReadRecipient (Except.ok (csvRead scenarioRows))
        (Except.ok fun name => "Hello ".toList ++ name) scenarioConfig mainSubject
        failingTransport [] = (none, [] ++ evs) ∧
      reported evs = ["ann@example.com".toList] ∧ ks.length = 1 :=
  ⟨⟨by decide, by decide⟩, rfl, by
    obtain ⟨evs, ks, h1, h2, h3, _, _⟩ :=
      ReadRecipient_sends_exactly_accepted scenarioRows 2 (by decide) (by decide)
        (fun name => "Hello ".toList ++ name)
        [ReadResult.record ["u".toList, "p".toList, "smtp.example.com".toList, "587".toList]]
        scenarioCredentials rfl mainSubject failingTransport []
    have hv : (scenarioRows.map rowAddress).filter accepted = ["ann@example.com".toList] := by
      decide
    rw [hv] at h2 h3
    exact ⟨evs, ks, h1, h2, h3⟩⟩

/-- C8, refuted as stated: with configuration rows of four and five fields the
reader returns the field-count error for the second row and the run ends in a
fatal abort without any delivery, whereas with the last row alone the message
for Ann is delivered: the earlier row does have an effect. -/
theorem uneven_config_rows_abort :
    (unevenConfigRows ≠ [] ∧ ∀ r ∈ unevenConfigRows, 4 ≤ r.length) ∧
    ReadRecipient (Except.ok (csvRead scenarioRows)) (Except.ok parsedFieldTemplate)
        (Except.ok (csvRead unevenConfigRows)) mainSubject succeedingTransport [] =
      (some (Abort.fatal ["wrong number of fields".toList]), []) ∧
    ReadRecipient (Except.ok (csvRead scenarioRows)) (Except.ok parsedFieldTemplate)
        (Except.ok (csvRead
          [["u".toList, "p".toList, "smtp.example.com".toList, "587".toList, "extra".toList]]))
        mainSubject succeedingTransport [] =
      (none,
        [Event.sendMail
            (scenarioMessage.call "u".toList "p".toList "smtp.example.com".toList "587".toList)
            none,
          Event.println ["Email Sent to ".toList, "ann@example.com".toList],
          Event.println ["Email address (".toList, "not-an-email".toList,
            ") is not valid - Skipping...".toList]]) := by
  refine ⟨⟨by decide, by decide⟩, by decide, ?_⟩
  have hrun : ReadRecipient (Except.ok (csvRead scenarioRows)) (Except.ok parsedFieldTemplate)
      (Except.ok (csvRead
        [["u".toList, "p".toList, "smtp.example.com".toList, "587".toList, "extra".toList]]))
      mainSubject succeedingTransport [] =
      recipientLoop (Except.ok parsedFieldTemplate) mainSubject scenarioCredentials
        succeedingTransport (scenarioRows.map ReadResult.record) [] := rfl
  rw [hrun, scenario_first_row, scenario_second_row, scenario_send]
  rfl

/-- C8, amended: with a non-empty configuration whose rows all have the same
number of fields, at least four, the run is the same as with the last row alone,
and every SMTP attempt is made with the user name, password, host name and port
of the last row. -/
theorem ReadRecipient_uses_last_config_row (rows : List (List GoString)) (hne : rows ≠ [])
    (n : Nat) (h4 : 4 ≤ n) (hlen : ∀ r ∈ rows, r.length = n) (recipientListFile : CsvFile)
    (templateFile : Except GoError Template) (subject : GoString) (t : Transport) (tr : Trace) :
    ReadRecipient recipientListFile templateFile (Except.ok (csvRead rows)) subject t tr =
      ReadRecipient recipientListFile templateFile
        (Except.ok (csvRead [rows.getLast hne])) subject t tr ∧
    ∃ evs : Trace,
      (ReadRecipient recipientListFile templateFile (Except.ok (csvRead rows))
        subject t tr).2 = tr ++ evs ∧
      ∀ a ∈ smtpAttempts evs,
        a.1.auth = PlainAuth.mk [] ((rows.getLast hne).getD 0 []) ((rows.getLast hne).getD 1 [])
          ((rows.getLast hne).getD 2 []) ∧
        a.1.addr = (rows.getLast hne).getD 2 [] ++ ":".toList ++ (rows.getLast hne).getD 3 [] ∧
        a.1.from_ = (rows.getLast hne).getD 0 [] := by
  have hge : ∀ r ∈ rows, 4 ≤ r.length := fun r hr => by rw [hlen r hr]; exact h4
  have hlast := readConfig_last rows hne hge ⟨[], [], [], []⟩
  have hone := readConfig_last [rows.getLast hne] (List.cons_ne_nil _ _)
    (by
      intro r hr
      rw [List.mem_singleton] at hr
      rw [hr]
      exact hge _ (List.getLast_mem hne)) ⟨[], [], [], []⟩
  simp only [List.map_cons, List.map_nil, List.getLast_singleton] at hone
  have hcsv := csvRead_of_equal_length rows n hlen
  have hcsv1 : csvRead [rows.getLast hne] = [ReadResult.record (rows.getLast hne)] := rfl
  rw [hcsv, hcsv1]
  constructor
  · simp only [ReadRecipient, hlast, hone]
  · obtain ⟨evs, hrun, hall⟩ := ReadRecipient_attempts recipientListFile templateFile
      (Except.ok (rows.map ReadResult.record)) subject t tr
    refine ⟨evs, hrun, ?_⟩
    intro a ha
    obtain ⟨m, c, ⟨sr, hsr, hc⟩, hcall, _⟩ := hall a ha
    cases hsr
    rw [hlast] at hc
    cases hc
    rw [hcall]
    exact ⟨rfl, rfl, rfl⟩

theorem ReadRecipient_uses_last_config_row_witness :
    ([["old".toList, "x".toList, "old.example.com".toList, "25".toList],
        ["u".toList, "p".toList, "smtp.example.com".toList, "587".toList]] ≠
      ([] : List (List GoString))) ∧
    (∀ r ∈ [["old".toList, "x".toList, "old.example.com".toList, "25".toList],
        ["u".toList, "p".toList, "smtp.example.com".toList, "587".toList]], r.length = 4) ∧
    ∃ evs : Trace,
      (ReadRecipient (Except.ok (csvRead scenarioRows))
        (Except.ok fun name => "Hello ".toList ++ name)
        (Except.ok (csvRead [["old".toList, "x".toList, "old.example.com".toList, "25".toList],
          ["u".toList, "p".toList, "smtp.example.com".toList, "587".toList]]))
        mainSubject succeedingTransport []).2 = [] ++ evs ∧
      ∀ a ∈ smtpAttempts evs,
        a.1.auth = PlainAuth.mk [] "u".toList "p".toList "smtp.example.com".toList ∧
        a.1.addr = "smtp.example.com".toList ++ ":".toList ++ "587".toList ∧
        a.1.from_ = "u".toList :=
  ⟨by decide, by decide,
    (ReadRecipient_uses_last_config_row
      [["old".toList, "x".toList, "old.example.com".toList, "25".toList],
        ["u".toList, "p".toList, "smtp.example.com".toList, "587".toList]]
      (by decide) 4 (by decide) (by decide) (Except.ok (csvRead scenarioRows))
      (Except.ok fun name => "Hello ".toList ++ name) mainSubject succeedingTransport []).2⟩

end BulkMailer
